import Mathlib

/-!
# Quad-witch-hut seed finder (`src/find_quadhuts.c`)

A shallow embedding of the program's `main` and of its helpers `str2int` and
`parse_version`.

* Machine integers are mathematical integers reduced explicitly to their width
  (`wrap64` for `int64_t`, `wrap32` for `int`).
* The biome library (`finders.h`) is not part of the program; every function of it
  that `main` calls is a field of `Finders` / `LayerStack`, an arbitrary function.
* The search loop produces the trace of the library calls and output actions it
  performs (`Event`); what is recorded, how often full generation runs and which
  candidates are examined are read off that trace.
-/

namespace QuadHut

/-! ## Machine integers -/

/-- The value an `int64_t` holds after an operation whose mathematical result is `x`
(two's complement wrap-around). -/
def wrap64 (x : Int) : Int := (x + 2 ^ 63) % 2 ^ 64 - 2 ^ 63

/-- The value an `int` (32 bit) holds after an operation whose mathematical result
is `x`; also the conversion `(int) x` of a wider value. -/
def wrap32 (x : Int) : Int := (x + 2 ^ 31) % 2 ^ 32 - 2 ^ 31

/-- The expression `j << 48` on an `int64_t`. -/
def shl48 (j : Int) : Int := wrap64 (j * 2 ^ 48)

/-- Line 241: `seed = base + (j << 48)`. -/
def candidateSeed (base : Int) (j : Nat) : Int := wrap64 (base + shl48 (j : Int))

/-- Line 228: `seed = base + ((j + 0x53) << 48)`. -/
def probeSeed (base : Int) (j : Nat) : Int := wrap64 (base + shl48 (wrap64 ((j : Int) + 0x53)))

/-! ## The biome library, as far as `main` uses it -/

/-- The library type `Pos`: a block position. -/
structure Pos where
  x : Int
  z : Int
deriving DecidableEq

/-- The two structure configurations `main` chooses between. -/
inductive StructureConfig
  | SWAMP_HUT_CONFIG
  | FEATURE_CONFIG
deriving DecidableEq

/-- The generator `g` set up by `setupGenerator`, seen through the two ways `main`
samples it. -/
structure LayerStack where
  /-- Lines 269-272: `setWorldSeed(lFilterBiome, seed); genArea(lFilterBiome,
  biomeCache, x, z, 1, 1)` followed by reading `biomeCache[0]`. -/
  genArea256 : Int → Int → Int → Int
  /-- Lines 275-279: `applySeed(&g, seed)` followed by `getBiomeAtPos(g, pos)`. -/
  getBiomeAtPos : Int → Pos → Int

/-- The library functions and constants of `finders.h` that the search uses. -/
structure Finders where
  /-- The biome identifier `Swamp`. -/
  Swamp : Int
  /-- The call `moveStructure(baseSeed, regionX, regionZ)`. -/
  moveStructure : Int → Int → Int → Int
  /-- The call `getStructurePos(config, seed, regionX, regionZ)`. -/
  getStructurePos : StructureConfig → Int → Int → Int → Pos
  /-- The sequence `setWorldSeed(&layerBiomeDummy, seed);
  setChunkSeed(&layerBiomeDummy, x, z); mcNextInt(&layerBiomeDummy, 6)`:
  `setChunkSeed` derives the chunk seed from the world seed and the cell alone, so
  the draw is a function of `seed`, `x` and `z`. -/
  mcNextInt6 : Int → Int → Int → Int

/-- Everything the search loop of `main` (lines 193-288) depends on. -/
structure Env where
  lib : Finders
  g : LayerStack
  featureConfig : StructureConfig
  regPosX : Int
  regPosZ : Int

/-- Line 193: `int areaX = (regPosX << 1) + 1`. -/
def areaX (E : Env) : Int := wrap32 (wrap32 (E.regPosX * 2) + 1)

/-- Line 194: `int areaZ = (regPosZ << 1) + 1`. -/
def areaZ (E : Env) : Int := wrap32 (wrap32 (E.regPosZ * 2) + 1)

/-- Lines 202-205: the four structure positions `qhpos[0..3]` of a moved base. -/
def qhpos (E : Env) (base : Int) (k : Fin 4) : Pos :=
  match k with
  | ⟨0, _⟩ => E.lib.getStructurePos E.featureConfig base
      (wrap32 (0 + E.regPosX)) (wrap32 (0 + E.regPosZ))
  | ⟨1, _⟩ => E.lib.getStructurePos E.featureConfig base
      (wrap32 (0 + E.regPosX)) (wrap32 (1 + E.regPosZ))
  | ⟨2, _⟩ => E.lib.getStructurePos E.featureConfig base
      (wrap32 (1 + E.regPosX)) (wrap32 (0 + E.regPosZ))
  | ⟨_ + 3, _⟩ => E.lib.getStructurePos E.featureConfig base
      (wrap32 (1 + E.regPosX)) (wrap32 (1 + E.regPosZ))

/-! ## The trace of the search -/

/-- What the search loop does, in the order it does it. -/
inductive Event
  /-- Lines 228-231: the draw of pre-filter probe `j` (`j = 0..4`). -/
  | probe (j : Nat) (seed : Int)
  /-- Lines 241-249: candidate `j` is entered and its south-east draw is taken. -/
  | step1 (j : Nat) (seed : Int)
  /-- Lines 256-264: the three neighbour draws are taken at candidate `j`. -/
  | adaptive (j : Nat) (swpc : Int)
  /-- Lines 269-270: the macro-biome sample. -/
  | genArea (j : Nat) (seed : Int)
  /-- Line 275: `applySeed(&g, seed)`, the start of full generation. -/
  | applySeed (j : Nat) (seed : Int)
  /-- Lines 276-279: `getBiomeAtPos(g, qhpos[k])`. -/
  | getBiome (j : Nat) (k : Fin 4)
  /-- Lines 282-283: the seed is written to the log and to standard output. -/
  | record (seed : Int)
  /-- Line 287: `fflush(file)`. -/
  | flush
deriving DecidableEq

/-- How one pass through the body of the candidate loop ends: with `continue` or by
falling off the end (both go on to `j + 1`, with the value `hits` then has), or with
`break`. -/
inductive Flow
  | next (hits : Int)
  | stop
deriving DecidableEq

/-- Lines 256-262: `swpc`, the number of the three neighbouring cells whose draw
is 5. -/
def swampCount (E : Env) (seed : Int) : Int :=
  (if E.lib.mcNextInt6 seed (areaX E) (wrap32 (areaZ E + 1)) = 5 then 1 else 0)
  + (if E.lib.mcNextInt6 seed (wrap32 (areaX E + 1)) (areaZ E) = 5 then 1 else 0)
  + (if E.lib.mcNextInt6 seed (areaX E) (areaZ E) = 5 then 1 else 0)

/-- Line 249: the draw at the south-east cell `(areaX + 1, areaZ + 1)`. -/
def seDraw (E : Env) (seed : Int) : Int :=
  E.lib.mcNextInt6 seed (wrap32 (areaX E + 1)) (wrap32 (areaZ E + 1))

/-- Lines 269-272: the macro-biome sample at `((regPosX << 1) + 2, (regPosZ << 1) + 2)`. -/
def macroBiome (E : Env) (seed : Int) : Int :=
  E.g.genArea256 seed (wrap32 (wrap32 (E.regPosX * 2) + 2)) (wrap32 (wrap32 (E.regPosZ * 2) + 2))

/-- Lines 269-285: what the loop body does with a candidate that was neither rejected
by the south-east draw nor abandoned: the macro-biome check, full generation with
the four position checks, and the recording of the seed. -/
def confirm (E : Env) (base : Int) (hits : Int) (j : Nat) : List Event × Flow :=
  let seed := candidateSeed base j
  if macroBiome E seed ≠ E.lib.Swamp then
    ([.genArea j seed], .next hits)
  else if E.g.getBiomeAtPos seed (qhpos E base 0) ≠ E.lib.Swamp then
    ([.genArea j seed, .applySeed j seed, .getBiome j 0], .next hits)
  else if E.g.getBiomeAtPos seed (qhpos E base 1) ≠ E.lib.Swamp then
    ([.genArea j seed, .applySeed j seed, .getBiome j 0, .getBiome j 1], .next hits)
  else if E.g.getBiomeAtPos seed (qhpos E base 2) ≠ E.lib.Swamp then
    ([.genArea j seed, .applySeed j seed, .getBiome j 0, .getBiome j 1, .getBiome j 2],
      .next hits)
  else if E.g.getBiomeAtPos seed (qhpos E base 3) ≠ E.lib.Swamp then
    ([.genArea j seed, .applySeed j seed, .getBiome j 0, .getBiome j 1, .getBiome j 2,
      .getBiome j 3], .next hits)
  else
    ([.genArea j seed, .applySeed j seed, .getBiome j 0, .getBiome j 1, .getBiome j 2,
      .getBiome j 3, .record seed], .next (hits + 1))

/-- Lines 241-285: the body of the candidate loop for high-bit value `j`, entered
with the counter `hits`. -/
def candidate (E : Env) (base : Int) (hits : Int) (j : Nat) : List Event × Flow :=
  let seed := candidateSeed base j
  if seDraw E seed ≠ 5 then
    ([.step1 j seed], .next hits)
  else if hits = 0 ∧ j &&& 0xfff = 0xfff then
    if swampCount E seed < (if j > 0x1000 then 2 else 1) then
      ([.step1 j seed, .adaptive j (swampCount E seed)], .stop)
    else
      (.step1 j seed :: .adaptive j (swampCount E seed) :: (confirm E base hits j).1,
        (confirm E base hits j).2)
  else
    (.step1 j seed :: (confirm E base hits j).1, (confirm E base hits j).2)

/-- Lines 240-286: the loop `for (j = ...; j < 0x10000; j++)`, with `n` passes still
to make (`n = 0x10000 - j`), the next candidate `j` and the counter `hits`. -/
def sweep (E : Env) (base : Int) : Nat → Nat → Int → List Event
  | 0, _, _ => []
  | n + 1, j, hits =>
    match candidate E base hits j with
    | (evs, .next hits') => evs ++ sweep E base n (j + 1) hits'
    | (evs, .stop) => evs

/-- Lines 227-233: the loop `for (j = ...; j < 5; j++)` of the pre-filter, with `n`
passes still to make and the next probe `j`. The flag tells whether the loop was
left by `break`, that is, whether `j < 5` holds after it. -/
def preFilter (E : Env) (base : Int) : Nat → Nat → List Event × Bool
  | 0, _ => ([], false)
  | n + 1, j =>
    if seDraw E (probeSeed base j) = 5 then
      ([.probe j (probeSeed base j)], true)
    else
      (.probe j (probeSeed base j) :: (preFilter E base n (j + 1)).1,
        (preFilter E base n (j + 1)).2)

/-- Line 200: `base = moveStructure(qhcandidates[i], regPosX, regPosZ)`. -/
def movedBase (E : Env) (c : Int) : Int := E.lib.moveStructure c E.regPosX E.regPosZ

/-- Lines 200-287: the body of the loop over the seed bases, for the corpus entry
`c`. A base the pre-filter rejects is left by `continue` (line 235). -/
def processBase (E : Env) (c : Int) : List Event :=
  if (preFilter E (movedBase E c) 5 0).2 then
    (preFilter E (movedBase E c) 5 0).1 ++ sweep E (movedBase E c) 0x10000 0 0 ++ [.flush]
  else
    (preFilter E (movedBase E c) 5 0).1

/-- Lines 199-288: the loop over the seed bases `qhcandidates[0..qhcnt-1]`. -/
def search (E : Env) : List Int → List Event
  | [] => []
  | c :: cs => processBase E c ++ search E cs

/-! ## Observations on a trace -/

/-- The seeds written to the log, in order. -/
def recorded (t : List Event) : List Int :=
  t.filterMap fun e => match e with
    | .record s => some s
    | _ => none

/-- The candidates for which full generation was started, in order. -/
def fullGen (t : List Event) : List Nat :=
  t.filterMap fun e => match e with
    | .applySeed j _ => some j
    | _ => none

/-- The number of invocations of full generation. -/
def fullGenCount (t : List Event) : Nat := (fullGen t).length

/-- The candidates whose loop body was entered, in order. -/
def examined (t : List Event) : List Nat :=
  t.filterMap fun e => match e with
    | .step1 j _ => some j
    | _ => none

/-! ## Predicates on candidates -/

/-- Full verification of candidate `j`: under full generation the biome at each of
the four structure positions is swamp. -/
def Verified (E : Env) (base : Int) (j : Nat) : Prop :=
  ∀ k : Fin 4, E.g.getBiomeAtPos (candidateSeed base j) (qhpos E base k) = E.lib.Swamp

/-- Candidate `j` survives the south-east draw and the macro-biome check and is
verified. -/
def Passes (E : Env) (base : Int) (j : Nat) : Prop :=
  seDraw E (candidateSeed base j) = 5 ∧ macroBiome E (candidateSeed base j) = E.lib.Swamp
    ∧ Verified E base j

/-- The loop is left by `break` at candidate `j` when it is entered with `hits`. -/
def Aborts (E : Env) (base : Int) (hits : Int) (j : Nat) : Prop :=
  seDraw E (candidateSeed base j) = 5 ∧ (hits = 0 ∧ j &&& 0xfff = 0xfff)
    ∧ swampCount E (candidateSeed base j) < (if j > 0x1000 then 2 else 1)

instance (E : Env) (base : Int) (j : Nat) : Decidable (Verified E base j) := by
  unfold Verified; infer_instance

instance (E : Env) (base : Int) (j : Nat) : Decidable (Passes E base j) := by
  unfold Passes; infer_instance

instance (E : Env) (base : Int) (hits : Int) (j : Nat) : Decidable (Aborts E base hits j) := by
  unfold Aborts; infer_instance

/-! ## Versions (lines 15-60, 91-116, 150-163) -/

/-- Modelled from the spec: the enumeration `enum versions` (`MC_1_7`, ..., `MC_LEG`)
is declared in a header that is not under `src/`. Its enumerators are numbered in the
order of the name table `versions[]`, which line 196 indexes by `mcversion`. -/
def MC_1_7 : Int := 0

/-- Modelled from the spec: see `MC_1_7`. -/
def MC_1_8 : Int := 1

/-- Modelled from the spec: see `MC_1_7`. -/
def MC_1_9 : Int := 2

/-- Modelled from the spec: see `MC_1_7`. -/
def MC_1_10 : Int := 3

/-- Modelled from the spec: see `MC_1_7`. -/
def MC_1_11 : Int := 4

/-- Modelled from the spec: see `MC_1_7`. -/
def MC_1_12 : Int := 5

/-- Modelled from the spec: see `MC_1_7`. -/
def MC_1_13 : Int := 6

/-- Modelled from the spec: see `MC_1_7`. -/
def MC_1_13_2 : Int := 7

/-- Modelled from the spec: see `MC_1_7`. -/
def MC_1_14 : Int := 8

/-- Modelled from the spec: see `MC_1_7`. -/
def MC_1_15 : Int := 9

/-- Modelled from the spec: see `MC_1_7`. -/
def MC_LEG : Int := 10

/-- Line 15: the table `versions[]`. -/
def versions : List String :=
  ["1.7", "1.8", "1.9", "1.10", "1.11", "1.12", "1.13", "1.13.2", "1.14", "1.15", "UNKNOWN"]

/-- The byte a character of an input line stands for: its code, reduced to eight
bits. -/
def byteOf (c : Char) : Nat := c.toNat % 256

/-- The conversion `(unsigned int) (str[h])` of line 18 for a byte `b`: `char` is
signed on the target, so a byte of 0x80 or more is a negative `char` and converts to
`b - 256` modulo `2^32`. -/
def charToUnsigned (b : Nat) : Nat := if b < 128 then b else b + (2 ^ 32 - 256)

/-- Lines 17-19, on the part of the string that starts at index `h`: at the end of
the string, which for a C string is also the first zero byte, the hash is 5381;
otherwise the hash of the rest is multiplied by 33 in `unsigned int` and combined by
exclusive or with the character converted to `unsigned int`. Strings are lists of
characters without the terminating zero. -/
def str2intFrom : List Char → Nat
  | [] => 5381
  | c :: rest =>
    if byteOf c = 0 then 5381
    else ((str2intFrom rest * 33) % 2 ^ 32) ^^^ charToUnsigned (byteOf c)

/-- Lines 17-19: `str2int(str, h)`. -/
def str2int (str : List Char) (h : Nat) : Nat := str2intFrom (str.drop h)

/-- Lines 21-60: `parse_version`; the `switch` is a chain of comparisons. -/
def parse_version (s : List Char) : Int :=
  if str2int s 0 = 193357645 then MC_1_7
  else if str2int s 0 = 193366850 then MC_1_8
  else if str2int s 0 = 193367875 then MC_1_9
  else if str2int s 0 = 2085846491 then MC_1_10
  else if str2int s 0 = 2085882490 then MC_1_11
  else if str2int s 0 = 2085918233 then MC_1_12
  else if str2int s 0 = 2085954232 then MC_1_13
  else if str2int s 0 = 3841915620 then MC_1_13_2
  else if str2int s 0 = 2085703007 then MC_1_14
  else if str2int s 0 = 2085739006 then MC_1_15
  else MC_LEG

/-- Lines 95-106: `mcversion` on the command-line path (`argc > 2`). `arg3` is what
`sscanf(argv[3], "%d", &mcversion)` stored, `none` when it did not return 1. -/
def cliVersion (argc : Nat) (arg3 : Option Int) : Int :=
  if argc > 3 then
    match arg3 with
    | some n => n
    | none => MC_1_7
  else MC_1_7

/-- Lines 110-116: `mcversion` on the interactive path, from the line read. -/
def interactiveVersion (res : List Char) : Int :=
  if parse_version res = MC_LEG then MC_1_7 else parse_version res

/-- What lines 150-163 set up. -/
structure Setup where
  featureConfig : StructureConfig
  seedFileName : String
  /-- Whether the Hills layer of the generator was replaced by `mapHills113`. -/
  hills113 : Bool
deriving DecidableEq

/-- Lines 150-163: the configuration chosen from `mcversion`. -/
def selectSetup (mcversion : Int) : Setup :=
  if mcversion ≥ MC_1_13 then
    ⟨.SWAMP_HUT_CONFIG, "./quadhutbases_1_13_Q1.txt", true⟩
  else
    ⟨.FEATURE_CONFIG, "./quadhutbases_1_7_Q1.txt", false⟩

/-! ## Interactive coordinates (lines 118-147) -/

/-- The constant `LONG_MAX` of `limits.h`, for a 64-bit `long`. -/
def LONG_MAX : Int := 2 ^ 63 - 1

/-- The constant `LONG_MIN` of `limits.h`, for a 64-bit `long`. -/
def LONG_MIN : Int := -2 ^ 63

/-- The constant `ERANGE` of `errno.h`. -/
def ERANGE : Int := 34

/-- The C library's `isspace` in the "C" locale: space and the controls 9 to 13. -/
def isspace (c : Char) : Bool := c.toNat == 32 || (9 ≤ c.toNat && c.toNat ≤ 13)

/-- The C library's `isdigit`. -/
def isdigit (c : Char) : Bool := 48 ≤ c.toNat && c.toNat ≤ 57

/-- The number a string of decimal digits denotes. -/
def digitsValue (ds : List Char) : Nat := ds.foldl (fun a c => 10 * a + (c.toNat - 48)) 0

/-- What a call `strtol(res, &endptr, 10)` leaves behind. -/
structure StrtolResult where
  /-- The value returned. -/
  value : Int
  /-- The distance `endptr - res`. -/
  endptr : Nat
  /-- The value of `errno` after the call, given that it was 0 before. -/
  errno : Int
deriving DecidableEq

/-- The character `-`. -/
def minusChar : Char := Char.ofNat 45

/-- The character `+`. -/
def plusChar : Char := Char.ofNat 43

/-- What `strtol` sees after skipping leading white space. -/
def numBody (res : List Char) : List Char := res.dropWhile isspace

/-- What `strtol` sees after the optional sign. -/
def numRest (res : List Char) : List Char :=
  if (numBody res).head? = some minusChar ∨ (numBody res).head? = some plusChar
  then (numBody res).tail else numBody res

/-- The digits `strtol` converts: the longest run of digits after the sign. -/
def numDigits (res : List Char) : List Char := (numRest res).takeWhile isdigit

/-- The mathematical value of the sign and digits `strtol` reads. -/
def numValue (res : List Char) : Int :=
  if (numBody res).head? = some minusChar then -(digitsValue (numDigits res) : Int)
  else (digitsValue (numDigits res) : Int)

/-- The C library function `strtol` with base 10, as the C standard describes it:
white space is skipped, an optional sign and the longest run of digits are read;
without a digit nothing is converted (`endptr == res`, value 0); a value outside the
range of `long` is clamped and `errno` becomes `ERANGE`. -/
def strtol (res : List Char) : StrtolResult :=
  if numDigits res = [] then ⟨0, 0, 0⟩
  else if numValue res > LONG_MAX then
    ⟨LONG_MAX, res.length - (numRest res).length + (numDigits res).length, ERANGE⟩
  else if numValue res < LONG_MIN then
    ⟨LONG_MIN, res.length - (numRest res).length + (numDigits res).length, ERANGE⟩
  else ⟨numValue res, res.length - (numRest res).length + (numDigits res).length, 0⟩

/-- Lines 120-131 (and 134-145): one coordinate is converted and checked. An error is
the diagnostic written before `exit(EXIT_FAILURE)`. -/
def readCoord (res : List Char) : Except String Int :=
  if ((strtol res).errno = ERANGE
        ∧ ((strtol res).value = LONG_MAX ∨ (strtol res).value = LONG_MIN))
      ∨ ((strtol res).errno ≠ 0 ∧ (strtol res).value = 0) then
    .error "Outside of range"
  else if (strtol res).endptr = 0 then
    .error "No digits were found"
  else
    .ok (strtol res).value

/-- Lines 146-147: `(int) (pos / 16 / 32)`, with C's truncating division on `long`. -/
def regionOfBlock (pos : Int) : Int := wrap32 ((pos.tdiv 16).tdiv 32)

/-- The parts of the environment of `main` that do not depend on its input. -/
structure World where
  lib : Finders
  /-- The generator after lines 150-163; the flag tells whether the Hills layer was
  replaced by `mapHills113`. -/
  setupGenerator : Bool → LayerStack
  /-- The call `loadSavedSeeds(seedFileName, &qhcnt)`: the seed bases of a file. -/
  loadSavedSeeds : String → List Int

/-- Lines 150-288: the search that `main` runs once `mcversion`, `regPosX` and
`regPosZ` are set. -/
def runSearch (W : World) (mcversion regPosX regPosZ : Int) : List Event :=
  search ⟨W.lib, W.setupGenerator (selectSetup mcversion).hills113,
      (selectSetup mcversion).featureConfig, regPosX, regPosZ⟩
    (W.loadSavedSeeds (selectSetup mcversion).seedFileName)

/-- Lines 108-148 followed by the search: the interactive path of `main`, from the
three lines read. An error is a diagnostic followed by `exit(EXIT_FAILURE)`; the
second coordinate is read only after the first was accepted. -/
def mainInteractive (W : World) (verLine xLine zLine : List Char) :
    Except String (List Event) :=
  match readCoord xLine with
  | .error msg => .error msg
  | .ok posX =>
    match readCoord zLine with
    | .error msg => .error msg
    | .ok posZ =>
      .ok (runSearch W (interactiveVersion verLine) (regionOfBlock posX) (regionOfBlock posZ))

/-! ## Exhaustive verification and fixtures -/

/-- The seeds that full verification accepts when it is applied to every candidate
`0..65535` of every seed base of the corpus, in order. -/
def exhaustive (E : Env) : List Int → List Int
  | [] => []
  | c :: cs =>
    ((List.range 0x10000).filter fun j => decide (Verified E (movedBase E c) j)).map
        (candidateSeed (movedBase E c))
      ++ exhaustive E cs

/-- A library whose draw is the constant `d` and that leaves bases unmoved. -/
def constLib (d : Int) : Finders where
  Swamp := 6
  moveStructure := fun c _ _ => c
  getStructurePos := fun _ _ x z => ⟨x, z⟩
  mcNextInt6 := fun _ _ _ => d

/-- A generator that yields the biome `b` everywhere. -/
def constStack (b : Int) : LayerStack where
  genArea256 := fun _ _ _ => b
  getBiomeAtPos := fun _ _ => b

/-- Fixture: every draw is 5 and every biome is swamp, at region (0, 0). -/
def envAllSwamp : Env := ⟨constLib 5, constStack 6, .SWAMP_HUT_CONFIG, 0, 0⟩

/-- Fixture: no draw is ever 5, at region (0, 0). -/
def envNoDraw : Env := ⟨constLib 0, constStack 6, .SWAMP_HUT_CONFIG, 0, 0⟩

/-- A library whose draw is 5 at the cell (2, 2), the south-east cell of region
(0, 0), and 0 at every other cell; bases are left unmoved. -/
def seLib : Finders where
  Swamp := 6
  moveStructure := fun c _ _ => c
  getStructurePos := fun _ _ x z => ⟨x, z⟩
  mcNextInt6 := fun _ x z => if x = 2 ∧ z = 2 then 5 else 0

/-- Fixture: the south-east draw always hits, the three neighbouring draws never do,
and every biome is swamp; region (0, 0). -/
def envLonelySE : Env := ⟨seLib, constStack 6, .SWAMP_HUT_CONFIG, 0, 0⟩

/-- Fixture: the south-east draw always hits, the three neighbouring draws never do,
and no macro-biome sample is swamp; region (0, 0). -/
def envSparse : Env := ⟨seLib, constStack 0, .SWAMP_HUT_CONFIG, 0, 0⟩

/-- The candidate of the base 0 with high-bit value 0x53, the seed `0x53 << 48`. -/
def seed53 : Int := candidateSeed 0 0x53

/-- A generator whose macro biome is swamp everywhere and whose full generation yields
swamp for the seed `0x53 << 48` alone. -/
def stackOnly53 : LayerStack where
  genArea256 := fun _ _ _ => 6
  getBiomeAtPos := fun s _ => if s = seed53 then 6 else 0

/-- Fixture: full verification succeeds for the base 0 at the high-bit value 0x53
only, and no draw is ever 5; region (0, 0). -/
def envOnly53NoDraw : Env := ⟨constLib 0, stackOnly53, .SWAMP_HUT_CONFIG, 0, 0⟩

/-- Fixture: full verification succeeds for the base 0 at the high-bit value 0x53
only, and every draw is 5; region (0, 0). -/
def envOnly53 : Env := ⟨constLib 5, stackOnly53, .SWAMP_HUT_CONFIG, 0, 0⟩

/-- The three neighbouring draws (west, north and north-west of the south-east
cell) of candidate `j` all differ from 5. -/
def NeighboursMiss (E : Env) (base : Int) (j : Nat) : Prop :=
  E.lib.mcNextInt6 (candidateSeed base j) (areaX E) (wrap32 (areaZ E + 1)) ≠ 5
    ∧ E.lib.mcNextInt6 (candidateSeed base j) (wrap32 (areaX E + 1)) (areaZ E) ≠ 5
    ∧ E.lib.mcNextInt6 (candidateSeed base j) (areaX E) (areaZ E) ≠ 5

/-- A well-formed decimal integer, the whole line: an optional minus sign followed by
one or more digits and nothing else. -/
def wellFormedInt (line : List Char) : Bool :=
  match line with
  | [] => false
  | c :: rest =>
    if c = minusChar then !rest.isEmpty && rest.all isdigit else line.all isdigit

/-- The value of a well-formed decimal integer. -/
def intValue (line : List Char) : Int :=
  match line with
  | [] => 0
  | c :: rest => if c = minusChar then -(digitsValue rest : Int) else (digitsValue line : Int)

/-- The lines the input check of lines 120-131 lets through, with the value they are
given: optional white space, an optional sign, one or more digits whose signed value
`v` lies in the range of `long`, and then anything that does not start with a
digit. -/
def AcceptedLine (line : List Char) (v : Int) : Prop :=
  ∃ ws sign ds tail : List Char,
    line = ws ++ (sign ++ (ds ++ tail))
      ∧ (∀ c ∈ ws, isspace c = true)
      ∧ (sign = [] ∨ sign = [minusChar] ∨ sign = [plusChar])
      ∧ ds ≠ [] ∧ (∀ c ∈ ds, isdigit c = true)
      ∧ (∀ c ∈ tail.head?, isdigit c = false)
      ∧ v = (if sign = [minusChar] then -(digitsValue ds : Int) else (digitsValue ds : Int))
      ∧ LONG_MIN ≤ v ∧ v ≤ LONG_MAX

/-- Fixture: a world with an empty seed-base file. -/
def worldEmpty : World := ⟨constLib 0, fun _ => constStack 0, fun _ => []⟩

/-! ## The result log (lines 282-283) -/

/-- The character of the decimal digit `d`. -/
def digitChar (d : Nat) : Char := Char.ofNat (48 + d)

/-- The decimal digits of `n`, most significant first, as the C library's `printf`
writes them; `fuel` bounds the number of digits (20 suffice below `2^64`). -/
def decimal : Nat → Nat → List Char
  | 0, _ => []
  | fuel + 1, n =>
    if n < 10 then [digitChar n] else decimal fuel (n / 10) ++ [digitChar (n % 10)]

/-- The text the conversion `"%" PRId64` of lines 282-283 writes for the `int64_t`
value `v`: a minus sign for a negative value, then the decimal digits of its
magnitude. -/
def printInt64 (v : Int) : List Char :=
  if v < 0 then minusChar :: decimal 20 (-v).toNat else decimal 20 v.toNat

/-- Line 282: the line `fprintf(file, "%" PRId64 "\n", seed)` appends to the log. -/
def logLine (seed : Int) : List Char := printInt64 seed ++ [Char.ofNat 10]

/-! ## The adaptive check and the end of the candidate loop -/

/-- The candidates at which the adaptive check was evaluated, in order. -/
def adaptiveAt (t : List Event) : List Nat :=
  t.filterMap fun e => match e with
    | .adaptive j _ => some j
    | _ => none

/-- For each evaluation of the adaptive check in a trace: the candidate, and the
number of seeds the trace records before that evaluation, counted from `r`. -/
def checksAfter : Nat → List Event → List (Nat × Nat)
  | _, [] => []
  | r, e :: t =>
    match e with
    | .record _ => checksAfter (r + 1) t
    | .adaptive j _ => (j, r) :: checksAfter r t
    | _ => checksAfter r t

/-- Lines 240-286: the candidate at which the loop is left by `break` (line 265), if
it is; `n` passes are still to be made, `j` is the next candidate and `hits` the
counter. -/
def breakIndex (E : Env) (base : Int) : Nat → Nat → Int → Option Nat
  | 0, _, _ => none
  | n + 1, j, hits =>
    match (candidate E base hits j).2 with
    | .next hits' => breakIndex E base n (j + 1) hits'
    | .stop => some j

/-- Lines 240-286: the value of the counter `hits` when the loop ends, after at most
`n` passes starting at candidate `j` with the counter `hits`. -/
def hitsAfter (E : Env) (base : Int) : Nat → Nat → Int → Int
  | 0, _, hits => hits
  | n + 1, j, hits =>
    match (candidate E base hits j).2 with
    | .next hits' => hitsAfter E base n (j + 1) hits'
    | .stop => hits

/-- The threshold of the adaptive check as the specification words it: 1 when at most
4096 candidates have been tried (`j + 1 ≤ 4096`), 2 afterwards. -/
def specThreshold (j : Nat) : Int := if j + 1 ≤ 4096 then 1 else 2

/-- A library whose draw is 5 at the cells (1, 2) and (2, 2), the south-east cell of
region (0, 0) and its western neighbour, and 0 elsewhere; bases are left unmoved. -/
def southLib : Finders where
  Swamp := 6
  moveStructure := fun c _ _ => c
  getStructurePos := fun _ _ x z => ⟨x, z⟩
  mcNextInt6 := fun _ _ z => if z = 2 then 5 else 0

/-- Fixture: the south-east draw always hits, exactly one of the three neighbouring
draws hits, and no macro-biome sample is swamp; region (0, 0). -/
def envOneNeighbour : Env := ⟨southLib, constStack 0, .SWAMP_HUT_CONFIG, 0, 0⟩

/-! ## The flushing of the log -/

/-- The results written to the log but not yet flushed after the trace `t`, given
that `acc` were unflushed before it: a record adds its seed, a flush empties the
list. -/
def pending : List Int → List Event → List Int
  | acc, [] => acc
  | acc, e :: t =>
    match e with
    | .record s => pending (acc ++ [s]) t
    | .flush => pending [] t
    | _ => pending acc t

/-- The number of calls of `fflush` in a trace. -/
def flushCount (t : List Event) : Nat := (t.filter fun e => decide (e = Event.flush)).length

/-! ## Two runs, and the banner -/

/-- Two environments give the same answers to every query the search makes for the
corpus entry `c`: the moved base, the swamp identifier, the draws of the five probes
and, for each candidate `0..65535`, the south-east draw, the count of the
neighbouring draws, the macro-biome sample and the biomes at the four structure
positions. -/
def SameAnswers (E E' : Env) (c : Int) : Prop :=
  movedBase E c = movedBase E' c ∧ E.lib.Swamp = E'.lib.Swamp
    ∧ (∀ j : Nat, j < 5 →
        seDraw E (probeSeed (movedBase E c) j) = seDraw E' (probeSeed (movedBase E c) j))
    ∧ (∀ j : Nat, j < 0x10000 →
        seDraw E (candidateSeed (movedBase E c) j) = seDraw E' (candidateSeed (movedBase E c) j)
          ∧ swampCount E (candidateSeed (movedBase E c) j)
              = swampCount E' (candidateSeed (movedBase E c) j)
          ∧ macroBiome E (candidateSeed (movedBase E c) j)
              = macroBiome E' (candidateSeed (movedBase E c) j)
          ∧ ∀ k : Fin 4,
              E.g.getBiomeAtPos (candidateSeed (movedBase E c) j) (qhpos E (movedBase E c) k)
                = E'.g.getBiomeAtPos (candidateSeed (movedBase E c) j)
                    (qhpos E' (movedBase E c) k))

/-- A generator whose macro biome is swamp in the column `x = 2` only and whose full
generation yields swamp everywhere. -/
def stackColumn : LayerStack where
  genArea256 := fun _ x _ => if x = 2 then 6 else 0
  getBiomeAtPos := fun _ _ => 6

/-- Fixture: as `envAllSwamp`, but with a generator that differs from it at macro
cells the search at region (0, 0) never samples. -/
def envAllSwampNear : Env := ⟨constLib 5, stackColumn, .SWAMP_HUT_CONFIG, 0, 0⟩

/-- Lines 196-197: the read `versions[mcversion]` of the banner; `none` when the index
lies outside the 11 entries of the table, where the C program reads outside the
array. -/
def bannerVersion (mcversion : Int) : Option String :=
  if 0 ≤ mcversion then versions[mcversion.toNat]? else none

/-! ## Lemmas on traces and on the loop body -/

theorem recorded_append (a b : List Event) : recorded (a ++ b) = recorded a ++ recorded b := by
  simp [recorded]

theorem fullGen_append (a b : List Event) : fullGen (a ++ b) = fullGen a ++ fullGen b := by
  simp [fullGen]

theorem examined_append (a b : List Event) : examined (a ++ b) = examined a ++ examined b := by
  simp [examined]

theorem verified_iff (E : Env) (base : Int) (j : Nat) :
    Verified E base j ↔
      E.g.getBiomeAtPos (candidateSeed base j) (qhpos E base 0) = E.lib.Swamp
      ∧ E.g.getBiomeAtPos (candidateSeed base j) (qhpos E base 1) = E.lib.Swamp
      ∧ E.g.getBiomeAtPos (candidateSeed base j) (qhpos E base 2) = E.lib.Swamp
      ∧ E.g.getBiomeAtPos (candidateSeed base j) (qhpos E base 3) = E.lib.Swamp := by
  constructor
  · intro h
    exact ⟨h 0, h 1, h 2, h 3⟩
  · rintro ⟨h0, h1, h2, h3⟩ k
    fin_cases k <;> assumption

theorem recorded_cons (e : Event) (t : List Event) :
    recorded (e :: t) = recorded [e] ++ recorded t := recorded_append [e] t

theorem fullGen_cons (e : Event) (t : List Event) :
    fullGen (e :: t) = fullGen [e] ++ fullGen t := fullGen_append [e] t

theorem examined_cons (e : Event) (t : List Event) :
    examined (e :: t) = examined [e] ++ examined t := examined_append [e] t

theorem confirm_flow (E : Env) (base hits : Int) (j : Nat) :
    (confirm E base hits j).2 =
      .next (if macroBiome E (candidateSeed base j) = E.lib.Swamp ∧ Verified E base j
        then hits + 1 else hits) := by
  have hv := verified_iff E base j
  unfold confirm
  simp only []
  split_ifs <;> simp_all

theorem confirm_recorded (E : Env) (base hits : Int) (j : Nat) :
    recorded (confirm E base hits j).1 =
      if macroBiome E (candidateSeed base j) = E.lib.Swamp ∧ Verified E base j
        then [candidateSeed base j] else [] := by
  have hv := verified_iff E base j
  unfold confirm
  simp only []
  split_ifs <;> simp_all [recorded]

theorem confirm_fullGen (E : Env) (base hits : Int) (j : Nat) :
    fullGen (confirm E base hits j).1 =
      if macroBiome E (candidateSeed base j) = E.lib.Swamp then [j] else [] := by
  unfold confirm
  simp only []
  split_ifs <;> simp_all [fullGen]

theorem confirm_examined (E : Env) (base hits : Int) (j : Nat) :
    examined (confirm E base hits j).1 = [] := by
  unfold confirm
  simp only []
  split_ifs <;> simp [examined]

theorem candidate_of_miss (E : Env) (base hits : Int) (j : Nat)
    (h : seDraw E (candidateSeed base j) ≠ 5) :
    candidate E base hits j = ([.step1 j (candidateSeed base j)], .next hits) := by
  unfold candidate
  simp only []
  rw [if_pos h]

theorem candidate_of_aborts (E : Env) (base hits : Int) (j : Nat) (h : Aborts E base hits j) :
    candidate E base hits j =
      ([.step1 j (candidateSeed base j), .adaptive j (swampCount E (candidateSeed base j))],
        .stop) := by
  obtain ⟨h1, h2, h3⟩ := h
  unfold candidate
  simp only []
  rw [if_neg (not_not.mpr h1), if_pos h2, if_pos h3]

theorem candidate_of_checked (E : Env) (base hits : Int) (j : Nat)
    (h1 : seDraw E (candidateSeed base j) = 5) (h2 : hits = 0 ∧ j &&& 0xfff = 0xfff)
    (h3 : ¬ swampCount E (candidateSeed base j) < (if j > 0x1000 then 2 else 1)) :
    candidate E base hits j =
      (.step1 j (candidateSeed base j) :: .adaptive j (swampCount E (candidateSeed base j))
        :: (confirm E base hits j).1, (confirm E base hits j).2) := by
  unfold candidate
  simp only []
  rw [if_neg (not_not.mpr h1), if_pos h2, if_neg h3]

theorem candidate_of_unchecked (E : Env) (base hits : Int) (j : Nat)
    (h1 : seDraw E (candidateSeed base j) = 5) (h2 : ¬ (hits = 0 ∧ j &&& 0xfff = 0xfff)) :
    candidate E base hits j =
      (.step1 j (candidateSeed base j) :: (confirm E base hits j).1,
        (confirm E base hits j).2) := by
  unfold candidate
  simp only []
  rw [if_neg (not_not.mpr h1), if_neg h2]

theorem candidate_flow (E : Env) (base hits : Int) (j : Nat) (h : ¬ Aborts E base hits j) :
    (candidate E base hits j).2 = .next (if Passes E base j then hits + 1 else hits) := by
  by_cases h1 : seDraw E (candidateSeed base j) = 5
  · by_cases h2 : hits = 0 ∧ j &&& 0xfff = 0xfff
    · have h3 : ¬ swampCount E (candidateSeed base j) < (if j > 0x1000 then 2 else 1) :=
        fun h3 => h ⟨h1, h2, h3⟩
      rw [candidate_of_checked E base hits j h1 h2 h3]
      simp [confirm_flow, Passes, h1]
    · rw [candidate_of_unchecked E base hits j h1 h2]
      simp [confirm_flow, Passes, h1]
  · rw [candidate_of_miss E base hits j h1]
    simp [Passes, h1]

theorem candidate_recorded (E : Env) (base hits : Int) (j : Nat) :
    recorded (candidate E base hits j).1 =
      if Passes E base j ∧ ¬ Aborts E base hits j then [candidateSeed base j] else [] := by
  by_cases h1 : seDraw E (candidateSeed base j) = 5
  · by_cases h2 : hits = 0 ∧ j &&& 0xfff = 0xfff
    · by_cases h3 : swampCount E (candidateSeed base j) < (if j > 0x1000 then 2 else 1)
      · have ha : Aborts E base hits j := ⟨h1, h2, h3⟩
        rw [candidate_of_aborts E base hits j ha]
        simp [ha, recorded]
      · have ha : ¬ Aborts E base hits j := fun ha => h3 ha.2.2
        rw [candidate_of_checked E base hits j h1 h2 h3]
        simp only [recorded_cons _ (_ :: _), recorded_cons _ (confirm E base hits j).1,
          confirm_recorded]
        simp [ha, Passes, h1, recorded]
    · have ha : ¬ Aborts E base hits j := fun ha => h2 ha.2.1
      rw [candidate_of_unchecked E base hits j h1 h2]
      simp only [recorded_cons _ (confirm E base hits j).1, confirm_recorded]
      simp [ha, Passes, h1, recorded]
  · rw [candidate_of_miss E base hits j h1]
    simp [Passes, h1, recorded]

theorem candidate_fullGen (E : Env) (base hits : Int) (j : Nat) :
    fullGen (candidate E base hits j).1 =
      if seDraw E (candidateSeed base j) = 5 ∧ ¬ Aborts E base hits j
          ∧ macroBiome E (candidateSeed base j) = E.lib.Swamp then [j] else [] := by
  by_cases h1 : seDraw E (candidateSeed base j) = 5
  · by_cases h2 : hits = 0 ∧ j &&& 0xfff = 0xfff
    · by_cases h3 : swampCount E (candidateSeed base j) < (if j > 0x1000 then 2 else 1)
      · have ha : Aborts E base hits j := ⟨h1, h2, h3⟩
        rw [candidate_of_aborts E base hits j ha]
        simp [ha, fullGen]
      · have ha : ¬ Aborts E base hits j := fun ha => h3 ha.2.2
        rw [candidate_of_checked E base hits j h1 h2 h3]
        simp only [fullGen_cons _ (_ :: _), fullGen_cons _ (confirm E base hits j).1,
          confirm_fullGen]
        simp [ha, h1, fullGen]
    · have ha : ¬ Aborts E base hits j := fun ha => h2 ha.2.1
      rw [candidate_of_unchecked E base hits j h1 h2]
      simp only [fullGen_cons _ (confirm E base hits j).1, confirm_fullGen]
      simp [ha, h1, fullGen]
  · rw [candidate_of_miss E base hits j h1]
    simp [h1, fullGen]

theorem candidate_examined (E : Env) (base hits : Int) (j : Nat) :
    examined (candidate E base hits j).1 = [j] := by
  by_cases h1 : seDraw E (candidateSeed base j) = 5
  · by_cases h2 : hits = 0 ∧ j &&& 0xfff = 0xfff
    · by_cases h3 : swampCount E (candidateSeed base j) < (if j > 0x1000 then 2 else 1)
      · rw [candidate_of_aborts E base hits j ⟨h1, h2, h3⟩]
        simp [examined]
      · rw [candidate_of_checked E base hits j h1 h2 h3]
        simp only [examined_cons _ (_ :: _), examined_cons _ (confirm E base hits j).1,
          confirm_examined]
        simp [examined]
    · rw [candidate_of_unchecked E base hits j h1 h2]
      simp only [examined_cons _ (confirm E base hits j).1, confirm_examined]
      simp [examined]
  · rw [candidate_of_miss E base hits j h1]
    simp [examined]

/-! ## Lemmas on the loops -/

theorem sweep_of_aborts (E : Env) (base hits : Int) (n j : Nat) (h : Aborts E base hits j) :
    sweep E base (n + 1) j hits =
      [.step1 j (candidateSeed base j), .adaptive j (swampCount E (candidateSeed base j))] := by
  rw [sweep, candidate_of_aborts E base hits j h]

theorem sweep_of_not_aborts (E : Env) (base hits : Int) (n j : Nat)
    (h : ¬ Aborts E base hits j) :
    sweep E base (n + 1) j hits =
      (candidate E base hits j).1
        ++ sweep E base n (j + 1) (if Passes E base j then hits + 1 else hits) := by
  have hf := candidate_flow E base hits j h
  rw [sweep]
  generalize candidate E base hits j = r at hf
  obtain ⟨evs, f⟩ := r
  simp only at hf
  subst hf
  rfl

theorem preFilter_recorded (E : Env) (base : Int) (n j : Nat) :
    recorded (preFilter E base n j).1 = [] := by
  induction n generalizing j with
  | zero => rfl
  | succ n ih =>
    unfold preFilter
    split_ifs
    · rfl
    · rw [recorded_cons, ih]
      rfl

theorem preFilter_fullGen (E : Env) (base : Int) (n j : Nat) :
    fullGen (preFilter E base n j).1 = [] := by
  induction n generalizing j with
  | zero => rfl
  | succ n ih =>
    unfold preFilter
    split_ifs
    · rfl
    · rw [fullGen_cons, ih]
      rfl

theorem preFilter_examined (E : Env) (base : Int) (n j : Nat) :
    examined (preFilter E base n j).1 = [] := by
  induction n generalizing j with
  | zero => rfl
  | succ n ih =>
    unfold preFilter
    split_ifs
    · rfl
    · rw [examined_cons, ih]
      rfl

theorem processBase_recorded (E : Env) (c : Int) :
    recorded (processBase E c) =
      if (preFilter E (movedBase E c) 5 0).2 then
        recorded (sweep E (movedBase E c) 0x10000 0 0) else [] := by
  unfold processBase
  split_ifs
  · rw [recorded_append, recorded_append, preFilter_recorded]
    simp [recorded]
  · exact preFilter_recorded E _ 5 0

theorem processBase_fullGen (E : Env) (c : Int) :
    fullGen (processBase E c) =
      if (preFilter E (movedBase E c) 5 0).2 then
        fullGen (sweep E (movedBase E c) 0x10000 0 0) else [] := by
  unfold processBase
  split_ifs
  · rw [fullGen_append, fullGen_append, preFilter_fullGen]
    simp [fullGen]
  · exact preFilter_fullGen E _ 5 0

theorem processBase_examined (E : Env) (c : Int) :
    examined (processBase E c) =
      if (preFilter E (movedBase E c) 5 0).2 then
        examined (sweep E (movedBase E c) 0x10000 0 0) else [] := by
  unfold processBase
  split_ifs
  · rw [examined_append, examined_append, preFilter_examined]
    simp [examined]
  · exact preFilter_examined E _ 5 0

theorem mem_recorded_sweep (E : Env) (base : Int) (s : Int) (n j : Nat) (hits : Int)
    (hs : s ∈ recorded (sweep E base n j hits)) :
    ∃ i, j ≤ i ∧ i < j + n ∧ Passes E base i ∧ s = candidateSeed base i := by
  induction n generalizing j hits with
  | zero => simp [sweep, recorded] at hs
  | succ n ih =>
    by_cases ha : Aborts E base hits j
    · rw [sweep_of_aborts E base hits n j ha] at hs
      simp [recorded] at hs
    · rw [sweep_of_not_aborts E base hits n j ha, recorded_append, List.mem_append,
        candidate_recorded] at hs
      rcases hs with hs | hs
      · split_ifs at hs with hp
        · rw [List.mem_singleton] at hs
          exact ⟨j, le_refl j, by omega, hp.1, hs⟩
        · simp at hs
      · obtain ⟨i, h1, h2, h3, h4⟩ := ih _ _ hs
        exact ⟨i, by omega, by omega, h3, h4⟩

theorem mem_exhaustive (E : Env) (corpus : List Int) (c : Int) (hc : c ∈ corpus) (j : Nat)
    (hj : j < 0x10000) (hv : Verified E (movedBase E c) j) :
    candidateSeed (movedBase E c) j ∈ exhaustive E corpus := by
  induction corpus with
  | nil => simp at hc
  | cons d ds ih =>
    rw [exhaustive, List.mem_append]
    rcases List.mem_cons.mp hc with h | h
    · subst h
      left
      rw [List.mem_map]
      exact ⟨j, by simp [List.mem_filter, List.mem_range, hj, hv], rfl⟩
    · right
      exact ih h

theorem mem_recorded_of_passes (E : Env) (base hits : Int) (n j : Nat)
    (hp : Passes E base j) (ha : ¬ Aborts E base hits j) :
    candidateSeed base j ∈ recorded (sweep E base (n + 1) j hits) := by
  rw [sweep_of_not_aborts E base hits n j ha, recorded_append, candidate_recorded,
    if_pos ⟨hp, ha⟩]
  simp

/-! ## C1: no false positives -/

/-- C1: every seed the search loop records is a candidate `base + (j << 48)`,
`0 ≤ j ≤ 65535`, of a (moved) seed base of the corpus, and under full generation the
biome at each of the four structure positions of that base is swamp; hence it is
among the seeds that exhaustive full verification of the same search space accepts. -/
theorem C1_no_false_positives (E : Env) (corpus : List Int) (s : Int)
    (hs : s ∈ recorded (search E corpus)) :
    (∃ c ∈ corpus, ∃ j : Nat, j ≤ 65535 ∧ s = candidateSeed (movedBase E c) j
        ∧ ∀ k : Fin 4, E.g.getBiomeAtPos s (qhpos E (movedBase E c) k) = E.lib.Swamp)
      ∧ s ∈ exhaustive E corpus := by
  have key : ∃ c ∈ corpus, ∃ j : Nat, j < 0x10000 ∧ s = candidateSeed (movedBase E c) j
      ∧ Verified E (movedBase E c) j := by
    induction corpus with
    | nil => simp [search, recorded] at hs
    | cons d ds ih =>
      rw [search, recorded_append, List.mem_append, processBase_recorded] at hs
      rcases hs with hs | hs
      · split_ifs at hs
        · obtain ⟨i, _, h2, h3, h4⟩ := mem_recorded_sweep E _ s _ _ _ hs
          exact ⟨d, List.mem_cons_self d ds, i, by omega, h4, h3.2.2⟩
        · simp at hs
      · obtain ⟨c, hc, r⟩ := ih hs
        exact ⟨c, List.mem_cons_of_mem d hc, r⟩
  obtain ⟨c, hc, j, hj, hsj, hv⟩ := key
  refine ⟨⟨c, hc, j, by omega, hsj, ?_⟩, ?_⟩
  · intro k
    rw [hsj]
    exact hv k
  · rw [hsj]
    exact mem_exhaustive E corpus c hc j hj hv

theorem envAllSwamp_records_zero : (0 : Int) ∈ recorded (search envAllSwamp [0]) := by
  have hp : Passes envAllSwamp 0 0 := by
    refine ⟨rfl, rfl, ?_⟩
    intro k
    rfl
  have ha : ¬ Aborts envAllSwamp 0 0 0 := by
    rintro ⟨_, ⟨_, h⟩, _⟩
    exact absurd h (by decide)
  have hpf : (preFilter envAllSwamp (movedBase envAllSwamp 0) 5 0).2 = true := by
    simp [preFilter, seDraw, envAllSwamp, constLib]
  rw [search, search, List.append_nil, processBase_recorded, if_pos hpf]
  exact mem_recorded_of_passes envAllSwamp 0 0 65535 0 hp ha

/-- Witness for C1: with every draw 5 and every biome swamp, the seed 0 of the base 0
is recorded, and it is a verified candidate. -/
theorem C1_no_false_positives_witness :
    (0 : Int) ∈ recorded (search envAllSwamp [0])
      ∧ ((∃ c ∈ [(0 : Int)], ∃ j : Nat, j ≤ 65535
            ∧ (0 : Int) = candidateSeed (movedBase envAllSwamp c) j
            ∧ ∀ k : Fin 4, envAllSwamp.g.getBiomeAtPos 0 (qhpos envAllSwamp
                (movedBase envAllSwamp c) k) = envAllSwamp.lib.Swamp)
          ∧ (0 : Int) ∈ exhaustive envAllSwamp [0]) :=
  ⟨envAllSwamp_records_zero,
    C1_no_false_positives envAllSwamp [0] 0 envAllSwamp_records_zero⟩

/-! ## C2: a base whose five probes miss is abandoned -/

theorem preFilter_all_miss (E : Env) (base : Int)
    (h : ∀ j : Nat, j < 5 → seDraw E (probeSeed base j) ≠ 5) :
    preFilter E base 5 0 =
      ((List.range 5).map fun j => Event.probe j (probeSeed base j), false) := by
  have h0 := h 0 (by omega)
  have h1 := h 1 (by omega)
  have h2 := h 2 (by omega)
  have h3 := h 3 (by omega)
  have h4 := h 4 (by omega)
  simp only [preFilter, if_neg h0, if_neg h1, if_neg h2, if_neg h3, if_neg h4]
  rfl

/-- C2: if the draw at the south-east cell `(areaX + 1, areaZ + 1)` differs from 5 for
each of the five probe seeds `base + ((j + 0x53) << 48)`, `j = 0..4`, the seed base is
abandoned: its whole trace is the five probe draws, so full generation is invoked
zero times and no seed is recorded for it (nor is any candidate examined). -/
theorem C2_prefilter_miss_abandons (E : Env) (c : Int)
    (h : ∀ j : Nat, j < 5 → seDraw E (probeSeed (movedBase E c) j) ≠ 5) :
    processBase E c
        = (List.range 5).map (fun j => Event.probe j (probeSeed (movedBase E c) j))
      ∧ fullGenCount (processBase E c) = 0
      ∧ recorded (processBase E c) = []
      ∧ examined (processBase E c) = [] := by
  have hp := preFilter_all_miss E (movedBase E c) h
  have ht : processBase E c
      = (List.range 5).map (fun j => Event.probe j (probeSeed (movedBase E c) j)) := by
    unfold processBase
    rw [hp]
    rfl
  refine ⟨ht, ?_, ?_, ?_⟩
  · rw [fullGenCount, processBase_fullGen, hp]
    rfl
  · rw [processBase_recorded, hp]
    rfl
  · rw [processBase_examined, hp]
    rfl

/-- Witness for C2: a generator whose draw is never 5 misses all five probes of the
base 0. -/
theorem C2_prefilter_miss_abandons_witness :
    (∀ j : Nat, j < 5 → seDraw envNoDraw (probeSeed (movedBase envNoDraw 0) j) ≠ 5)
      ∧ (processBase envNoDraw 0
          = (List.range 5).map
              (fun j => Event.probe j (probeSeed (movedBase envNoDraw 0) j))
        ∧ fullGenCount (processBase envNoDraw 0) = 0
        ∧ recorded (processBase envNoDraw 0) = []
        ∧ examined (processBase envNoDraw 0) = []) :=
  ⟨fun _ _ => by simp [seDraw, envNoDraw, constLib],
    C2_prefilter_miss_abandons envNoDraw 0
      (fun _ _ => by simp [seDraw, envNoDraw, constLib])⟩

/-! ## Splitting the candidate loop -/

theorem land_fff (i : Nat) : i &&& 0xfff = i % 4096 := Nat.and_pow_two_sub_one_eq_mod i 12

theorem not_aborts_of_pos (E : Env) (base hits : Int) (j : Nat) (h : 0 < hits) :
    ¬ Aborts E base hits j := by
  rintro ⟨_, ⟨h0, _⟩, _⟩
  omega

theorem not_aborts_of_mod (E : Env) (base hits : Int) (j : Nat) (h : j % 4096 ≠ 4095) :
    ¬ Aborts E base hits j := by
  rintro ⟨_, ⟨_, h1⟩, _⟩
  rw [land_fff] at h1
  exact h h1

theorem range'_filter_cons_pos (p : Nat → Bool) (j n : Nat) (h : p j = true) :
    (List.range' j (n + 1)).filter p = j :: (List.range' (j + 1) n).filter p := by
  rw [List.range'_succ, List.filter_cons_of_pos h]

theorem range'_filter_cons_neg (p : Nat → Bool) (j n : Nat) (h : ¬ p j = true) :
    (List.range' j (n + 1)).filter p = (List.range' (j + 1) n).filter p := by
  rw [List.range'_succ, List.filter_cons_of_neg h]

/-- As long as the loop cannot be left by `break`, it does the work of its passes one
after the other: `n` passes yield a piece of trace whose observations are those of
the candidates `j .. j + n - 1`, and the counter grows by the number of seeds
recorded. -/
theorem sweep_split (E : Env) (base : Int) (m n : Nat) :
    ∀ (j : Nat) (hits : Int),
      (∀ i, j ≤ i → i < j + n → ∀ h' : Int, hits ≤ h' → ¬ Aborts E base h' i) →
      ∃ pre, sweep E base (n + m) j hits
          = pre ++ sweep E base m (j + n)
              (hits + (((List.range' j n).filter fun i => decide (Passes E base i)).length : Nat))
        ∧ recorded pre
            = ((List.range' j n).filter fun i => decide (Passes E base i)).map
                (candidateSeed base)
        ∧ examined pre = List.range' j n
        ∧ fullGen pre = (List.range' j n).filter fun i =>
            decide (seDraw E (candidateSeed base i) = 5
              ∧ macroBiome E (candidateSeed base i) = E.lib.Swamp) := by
  induction n with
  | zero =>
    intro j hits _
    exact ⟨[], by simp, rfl, rfl, rfl⟩
  | succ n ih =>
    intro j hits h
    have ha : ¬ Aborts E base hits j := h j (le_refl j) (by omega) hits (le_refl hits)
    have hle : hits ≤ (if Passes E base j then hits + 1 else hits) := by
      split_ifs <;> omega
    obtain ⟨pre, h1, h2, h3, h4⟩ := ih (j + 1) (if Passes E base j then hits + 1 else hits)
      (fun i hi1 hi2 h' hh => h i (by omega) (by omega) h' (by omega))
    refine ⟨(candidate E base hits j).1 ++ pre, ?_, ?_, ?_, ?_⟩
    · have e : (if Passes E base j then hits + 1 else hits)
            + (((List.range' (j + 1) n).filter fun i => decide (Passes E base i)).length : Nat)
          = hits + (((List.range' j (n + 1)).filter
              fun i => decide (Passes E base i)).length : Nat) := by
        by_cases hp : Passes E base j
        · rw [if_pos hp, range'_filter_cons_pos _ j n (by simpa using hp)]
          simp only [List.length_cons]
          push_cast
          omega
        · rw [if_neg hp, range'_filter_cons_neg _ j n (by simpa using hp)]
      rw [show n + 1 + m = (n + m) + 1 by omega, sweep_of_not_aborts E base hits (n + m) j ha,
        h1, List.append_assoc, show j + 1 + n = j + (n + 1) by omega, e]
    · rw [recorded_append, h2, candidate_recorded]
      by_cases hp : Passes E base j
      · rw [if_pos ⟨hp, ha⟩, range'_filter_cons_pos _ j n (by simpa using hp)]
        rfl
      · rw [if_neg (fun hh => hp hh.1), range'_filter_cons_neg _ j n (by simpa using hp)]
        rfl
    · rw [examined_append, h3, candidate_examined, List.range'_succ]
      rfl
    · rw [fullGen_append, h4, candidate_fullGen]
      by_cases hq : seDraw E (candidateSeed base j) = 5
          ∧ macroBiome E (candidateSeed base j) = E.lib.Swamp
      · rw [if_pos ⟨hq.1, ha, hq.2⟩, range'_filter_cons_pos _ j n (by simpa using hq)]
        rfl
      · rw [if_neg (fun hh => hq ⟨hh.1, hh.2.2⟩),
          range'_filter_cons_neg _ j n (by simpa using hq)]
        rfl

theorem preFilter_snd_iff (E : Env) (base : Int) (n j : Nat) :
    (preFilter E base n j).2 = true ↔
      ∃ i, j ≤ i ∧ i < j + n ∧ seDraw E (probeSeed base i) = 5 := by
  induction n generalizing j with
  | zero =>
    simp only [preFilter, Bool.false_eq_true, false_iff]
    rintro ⟨i, h1, h2, _⟩
    omega
  | succ n ih =>
    unfold preFilter
    split_ifs with h
    · simp only [true_iff]
      exact ⟨j, le_refl j, by omega, h⟩
    · simp only []
      rw [ih]
      constructor
      · rintro ⟨i, h1, h2, h3⟩
        exact ⟨i, by omega, by omega, h3⟩
      · rintro ⟨i, h1, h2, h3⟩
        have hij : i ≠ j := by
          rintro rfl
          exact h h3
        exact ⟨i, by omega, by omega, h3⟩

theorem swampCount_of_miss (E : Env) (base : Int) (j : Nat) (h : NeighboursMiss E base j) :
    swampCount E (candidateSeed base j) = 0 := by
  obtain ⟨h1, h2, h3⟩ := h
  unfold swampCount
  rw [if_neg h1, if_neg h2, if_neg h3]
  rfl

/-! ## C3: the adaptive abort -/

theorem seDraw_envLonelySE (s : Int) : seDraw envLonelySE s = 5 := by
  simp [seDraw, envLonelySE, seLib, areaX, areaZ, wrap32]

theorem neighboursMiss_envLonelySE (base : Int) (j : Nat) : NeighboursMiss envLonelySE base j := by
  simp [NeighboursMiss, envLonelySE, seLib, areaX, areaZ, wrap32]

/-- Counterexample to C3 as stated: in a fixture whose south-east draw always hits,
whose three neighbouring draws never hit and whose biomes are all swamp, the base 0
passes the pre-filter, yet candidate 0 is verified and recorded long before the
check at candidate 4095 could fire. -/
theorem C3_counterexample :
    (∃ j : Nat, j < 5 ∧ seDraw envLonelySE (probeSeed (movedBase envLonelySE 0) j) = 5)
      ∧ (∀ j : Nat, j < 0x10000 → NeighboursMiss envLonelySE (movedBase envLonelySE 0) j)
      ∧ ¬ ((∀ j ∈ examined (processBase envLonelySE 0), j ≤ 4096)
          ∧ recorded (processBase envLonelySE 0) = []
          ∧ fullGenCount (processBase envLonelySE 0) = 0) := by
  refine ⟨⟨0, by omega, seDraw_envLonelySE _⟩, fun j _ => neighboursMiss_envLonelySE _ j, ?_⟩
  rintro ⟨_, h, _⟩
  have hpf : (preFilter envLonelySE (movedBase envLonelySE 0) 5 0).2 = true :=
    (preFilter_snd_iff _ _ 5 0).mpr ⟨0, le_refl 0, by omega, seDraw_envLonelySE _⟩
  have hp : Passes envLonelySE (movedBase envLonelySE 0) 0 :=
    ⟨seDraw_envLonelySE _, rfl, fun _ => rfl⟩
  have ha : ¬ Aborts envLonelySE (movedBase envLonelySE 0) 0 0 :=
    not_aborts_of_mod _ _ _ _ (by decide)
  have hm := mem_recorded_of_passes envLonelySE (movedBase envLonelySE 0) 0 65535 0 hp ha
  rw [processBase_recorded, if_pos hpf] at h
  rw [h] at hm
  simp at hm

/-- C3, amended: for a seed base that passes the pre-filter and whose three
neighbouring draws never equal 5 for any candidate, if moreover the south-east draw
of candidate 4095 is 5 and no candidate below 4095 has both a south-east draw of 5
and a swamp macro biome, then the enumeration halts at candidate 4095 (the
candidates examined are exactly 0..4095, so none beyond index 4096), records zero
seeds and invokes full generation zero times. -/
theorem C3_adaptive_abort_amended (E : Env) (c : Int)
    (hpf : ∃ j : Nat, j < 5 ∧ seDraw E (probeSeed (movedBase E c) j) = 5)
    (hn : ∀ j : Nat, j < 0x10000 → NeighboursMiss E (movedBase E c) j)
    (hse : seDraw E (candidateSeed (movedBase E c) 4095) = 5)
    (hq : ∀ j : Nat, j < 4095 →
      ¬ (seDraw E (candidateSeed (movedBase E c) j) = 5
          ∧ macroBiome E (candidateSeed (movedBase E c) j) = E.lib.Swamp)) :
    examined (processBase E c) = List.range 4096
      ∧ (∀ j ∈ examined (processBase E c), j ≤ 4096)
      ∧ recorded (processBase E c) = []
      ∧ fullGenCount (processBase E c) = 0 := by
  obtain ⟨p, hp5, hp⟩ := hpf
  have hpf : (preFilter E (movedBase E c) 5 0).2 = true :=
    (preFilter_snd_iff _ _ 5 0).mpr ⟨p, Nat.zero_le p, by omega, hp⟩
  obtain ⟨pre, h1, h2, h3, h4⟩ := sweep_split E (movedBase E c) 61441 4095 0 0
    (fun i _ hi h' _ => not_aborts_of_mod _ _ _ _ (by omega))
  have hnone : ((List.range' 0 4095).filter fun i => decide (Passes E (movedBase E c) i)) = [] := by
    rw [List.filter_eq_nil_iff]
    intro i hi hpass
    rw [List.mem_range'_1] at hi
    have hpass : Passes E (movedBase E c) i := by simpa using hpass
    exact hq i (by omega) ⟨hpass.1, hpass.2.1⟩
  have hnone' : ((List.range' 0 4095).filter fun i =>
      decide (seDraw E (candidateSeed (movedBase E c) i) = 5
        ∧ macroBiome E (candidateSeed (movedBase E c) i) = E.lib.Swamp)) = [] := by
    rw [List.filter_eq_nil_iff]
    intro i hi hpass
    rw [List.mem_range'_1] at hi
    exact hq i (by omega) (by simpa using hpass)
  have hab : Aborts E (movedBase E c) 0 4095 := by
    refine ⟨hse, ⟨rfl, by decide⟩, ?_⟩
    rw [swampCount_of_miss E _ 4095 (hn 4095 (by omega))]
    decide
  rw [hnone] at h1 h2
  rw [hnone'] at h4
  have hsw : sweep E (movedBase E c) 0x10000 0 0
      = pre ++ [.step1 4095 (candidateSeed (movedBase E c) 4095),
          .adaptive 4095 (swampCount E (candidateSeed (movedBase E c) 4095))] := by
    rw [← sweep_of_aborts E (movedBase E c) 0 61440 4095 hab]
    exact h1
  have hex : examined (processBase E c) = List.range 4096 := by
    rw [processBase_examined, if_pos hpf, hsw, examined_append, h3, List.range_eq_range',
      List.range'_concat 0 4095]
    rfl
  refine ⟨hex, ?_, ?_, ?_⟩
  · intro j hj
    rw [hex, List.mem_range] at hj
    omega
  · rw [processBase_recorded, if_pos hpf, hsw, recorded_append, h2]
    rfl
  · rw [fullGenCount, processBase_fullGen, if_pos hpf, hsw, fullGen_append, h4]
    rfl

theorem seDraw_envSparse (s : Int) : seDraw envSparse s = 5 := by
  simp [seDraw, envSparse, seLib, areaX, areaZ, wrap32]

theorem neighboursMiss_envSparse (base : Int) (j : Nat) : NeighboursMiss envSparse base j := by
  simp [NeighboursMiss, envSparse, seLib, areaX, areaZ, wrap32]

theorem macroBiome_envSparse (s : Int) : macroBiome envSparse s ≠ envSparse.lib.Swamp := by
  simp [macroBiome, envSparse, constStack, seLib]

/-- Witness for the amended C3: a fixture whose south-east draw always hits, whose
neighbouring draws never hit and whose macro biome is never swamp. -/
theorem C3_adaptive_abort_amended_witness :
    (∃ j : Nat, j < 5 ∧ seDraw envSparse (probeSeed (movedBase envSparse 0) j) = 5)
      ∧ (∀ j : Nat, j < 0x10000 → NeighboursMiss envSparse (movedBase envSparse 0) j)
      ∧ seDraw envSparse (candidateSeed (movedBase envSparse 0) 4095) = 5
      ∧ (∀ j : Nat, j < 4095 →
          ¬ (seDraw envSparse (candidateSeed (movedBase envSparse 0) j) = 5
            ∧ macroBiome envSparse (candidateSeed (movedBase envSparse 0) j)
                = envSparse.lib.Swamp))
      ∧ (examined (processBase envSparse 0) = List.range 4096
        ∧ (∀ j ∈ examined (processBase envSparse 0), j ≤ 4096)
        ∧ recorded (processBase envSparse 0) = []
        ∧ fullGenCount (processBase envSparse 0) = 0) :=
  ⟨⟨0, by omega, seDraw_envSparse _⟩, fun j _ => neighboursMiss_envSparse _ j,
    seDraw_envSparse _, fun _ _ h => macroBiome_envSparse _ h.2,
    C3_adaptive_abort_amended envSparse 0 ⟨0, by omega, seDraw_envSparse _⟩
      (fun j _ => neighboursMiss_envSparse _ j) (seDraw_envSparse _)
      (fun _ _ h => macroBiome_envSparse _ h.2)⟩

/-! ## C4: the fixture with one true seed at high-bit value 0x53 -/

theorem probeSeed_eq (base : Int) (j : Nat) (h : j < 5) :
    probeSeed base j = candidateSeed base (j + 0x53) := by
  have e : wrap64 ((j : Int) + 0x53) = ((j + 0x53 : Nat) : Int) := by
    unfold wrap64
    push_cast
    omega
  rw [probeSeed, candidateSeed, e]

theorem candidateSeed_zero_eq (j : Nat) (hj : j < 0x10000) :
    candidateSeed 0 j = seed53 ↔ j = 0x53 := by
  unfold seed53 candidateSeed shl48 wrap64
  omega

theorem verified_envOnly53 (j : Nat) (hj : j < 0x10000) :
    Verified envOnly53 (movedBase envOnly53 0) j ↔ j = 0x53 := by
  rw [← candidateSeed_zero_eq j hj]
  unfold Verified envOnly53 movedBase
  simp only [stackOnly53, constLib]
  constructor
  · intro h
    have h0 := h 0
    by_contra hne
    rw [if_neg hne] at h0
    exact absurd h0 (by decide)
  · intro h k
    rw [if_pos h]

theorem verified_envOnly53NoDraw (j : Nat) (hj : j < 0x10000) :
    Verified envOnly53NoDraw (movedBase envOnly53NoDraw 0) j ↔ j = 0x53 := by
  rw [← candidateSeed_zero_eq j hj]
  unfold Verified envOnly53NoDraw movedBase
  simp only [stackOnly53, constLib]
  constructor
  · intro h
    have h0 := h 0
    by_contra hne
    rw [if_neg hne] at h0
    exact absurd h0 (by decide)
  · intro h k
    rw [if_pos h]

/-- Counterexample to C4 as stated: at region (0, 0), full verification of the base 0
succeeds at the high-bit value 0x53 and nowhere else, but no draw of the generator
is 5, so the pre-filter rejects the base and nothing is emitted. -/
theorem C4_counterexample :
    envOnly53NoDraw.regPosX = 0 ∧ envOnly53NoDraw.regPosZ = 0
      ∧ (∀ j : Nat, j < 0x10000 →
          (Verified envOnly53NoDraw (movedBase envOnly53NoDraw 0) j ↔ j = 0x53))
      ∧ recorded (processBase envOnly53NoDraw 0) = []
      ∧ recorded (processBase envOnly53NoDraw 0)
          ≠ [candidateSeed (movedBase envOnly53NoDraw 0) 0x53] := by
  have hp := preFilter_all_miss envOnly53NoDraw (movedBase envOnly53NoDraw 0)
    (fun _ _ => by simp [seDraw, envOnly53NoDraw, constLib])
  have hr : recorded (processBase envOnly53NoDraw 0) = [] := by
    rw [processBase_recorded, hp]
    rfl
  refine ⟨rfl, rfl, verified_envOnly53NoDraw, hr, ?_⟩
  rw [hr]
  simp

theorem filter_range'_single (p : Nat → Bool) (a n k : Nat)
    (h : ∀ i, a ≤ i → i < a + n → (p i = true ↔ i = k)) :
    (List.range' a n).filter p = (List.range' a n).filter fun i => decide (i = k) := by
  apply List.filter_congr
  intro i hi
  rw [List.mem_range'_1] at hi
  have := h i hi.1 hi.2
  by_cases hk : i = k
  · subst hk
    simp [this.mpr rfl]
  · have hpi : p i = false := by
      cases hp : p i
      · rfl
      · exact absurd (this.mp hp) hk
    simp [hk, hpi]

/-- C4, amended: for every seed base for which full verification succeeds at exactly
one high-bit value, namely 0x53, the search emits exactly the seed
`base + (0x53 << 48)` when the south-east draw of that seed is 5 and its macro-biome
sample is swamp, and emits nothing otherwise; it never emits another candidate of
the 65536-wide space. This holds at every region, in particular at (0, 0). -/
theorem C4_single_seed_amended (E : Env) (c : Int)
    (hv : ∀ j : Nat, j < 0x10000 → (Verified E (movedBase E c) j ↔ j = 0x53)) :
    recorded (processBase E c) =
      if seDraw E (candidateSeed (movedBase E c) 0x53) = 5
          ∧ macroBiome E (candidateSeed (movedBase E c) 0x53) = E.lib.Swamp
      then [candidateSeed (movedBase E c) 0x53] else [] := by
  by_cases hc : seDraw E (candidateSeed (movedBase E c) 0x53) = 5
      ∧ macroBiome E (candidateSeed (movedBase E c) 0x53) = E.lib.Swamp
  · rw [if_pos hc]
    have hpf : (preFilter E (movedBase E c) 5 0).2 = true :=
      (preFilter_snd_iff _ _ 5 0).mpr ⟨0, le_refl 0, by omega, by
        rw [probeSeed_eq _ 0 (by omega)]
        exact hc.1⟩
    have hpass : ∀ i : Nat, i < 0x10000 → (Passes E (movedBase E c) i ↔ i = 0x53) := by
      intro i hi
      constructor
      · intro h
        exact (hv i hi).mp h.2.2
      · intro h
        subst h
        exact ⟨hc.1, hc.2, (hv 0x53 hi).mpr rfl⟩
    obtain ⟨pre, h1, h2, _, _⟩ := sweep_split E (movedBase E c) 65452 84 0 0
      (fun i _ hi h' _ => not_aborts_of_mod _ _ _ _ (by omega))
    have hf1 : ((List.range' 0 84).filter fun i => decide (Passes E (movedBase E c) i))
        = [0x53] := by
      rw [filter_range'_single _ 0 84 0x53
        (fun i _ hi => by simpa using hpass i (by omega))]
      decide
    obtain ⟨post, k1, k2, _, _⟩ := sweep_split E (movedBase E c) 0 65452 (0 + 84)
      (0 + (((List.range' 0 84).filter
        fun i => decide (Passes E (movedBase E c) i)).length : Nat))
      (fun i _ _ h' hh => not_aborts_of_pos _ _ _ _ (by
        rw [hf1] at hh
        simp at hh
        omega))
    have hf2 : ((List.range' (0 + 84) 65452).filter
        fun i => decide (Passes E (movedBase E c) i)) = [] := by
      rw [List.filter_eq_nil_iff]
      intro i hi hp
      rw [List.mem_range'_1] at hi
      have := (hpass i (by omega)).mp (by simpa using hp)
      omega
    rw [hf2] at k2
    rw [hf1] at h2
    rw [sweep, List.append_nil, Nat.add_zero] at k1
    rw [k1] at h1
    have hsw : sweep E (movedBase E c) 0x10000 0 0 = pre ++ post := h1
    rw [processBase_recorded, if_pos hpf, hsw, recorded_append, h2, k2]
    rfl
  · rw [if_neg hc, List.eq_nil_iff_forall_not_mem]
    intro s hs
    rw [processBase_recorded] at hs
    split_ifs at hs
    · obtain ⟨i, _, h2, h3, _⟩ := mem_recorded_sweep E _ s _ _ _ hs
      have hi : i = 0x53 := (hv i (by omega)).mp h3.2.2
      subst hi
      exact hc ⟨h3.1, h3.2.1⟩
    · simp at hs

/-- Witness for the amended C4: the base 0 is verified at 0x53 only, with every draw 5
and every macro biome swamp, and exactly its seed `0x53 << 48` is emitted. -/
theorem C4_single_seed_amended_witness :
    (∀ j : Nat, j < 0x10000 → (Verified envOnly53 (movedBase envOnly53 0) j ↔ j = 0x53))
      ∧ recorded (processBase envOnly53 0) =
          if seDraw envOnly53 (candidateSeed (movedBase envOnly53 0) 0x53) = 5
              ∧ macroBiome envOnly53 (candidateSeed (movedBase envOnly53 0) 0x53)
                  = envOnly53.lib.Swamp
          then [candidateSeed (movedBase envOnly53 0) 0x53] else [] :=
  ⟨verified_envOnly53, C4_single_seed_amended envOnly53 0 verified_envOnly53⟩

/-! ## C5: the candidate seed substitutes the high 16 bits -/

theorem candidateSeed_injOn (base : Int) (j j' : Nat) (hj : j ≤ 65535) (hj' : j' ≤ 65535)
    (h : candidateSeed base j = candidateSeed base j') : j = j' := by
  unfold candidateSeed shl48 wrap64 at h
  omega

/-- C5: for a seed base whose bits 48-63 are zero and a high-bit value `j` with
`0 ≤ j ≤ 65535`, the candidate `base + (j << 48)` (64-bit two's complement) is a value
of `int64_t` whose unsigned reading is `base + j * 2^48`: its low 48 bits are those of
`base`, its bits 48-63 are `j`, nothing is carried; and the candidates of one base are
pairwise distinct. -/
theorem C5_candidate_bits (base : Int) (j : Nat) (hb0 : 0 ≤ base) (hb : base < 2 ^ 48)
    (hj : j ≤ 65535) :
    (-2 ^ 63 ≤ candidateSeed base j ∧ candidateSeed base j < 2 ^ 63)
      ∧ candidateSeed base j % 2 ^ 64 = base + (j : Int) * 2 ^ 48
      ∧ candidateSeed base j % 2 ^ 48 = base % 2 ^ 48
      ∧ candidateSeed base j % 2 ^ 64 / 2 ^ 48 = (j : Int)
      ∧ ∀ j' : Nat, j' ≤ 65535 → candidateSeed base j' = candidateSeed base j → j' = j := by
  refine ⟨?_, ?_, ?_, ?_, fun j' hj' h => candidateSeed_injOn base j' j hj' hj h⟩
  all_goals
    unfold candidateSeed shl48 wrap64
    omega

/-- Witness for C5: the base 5 with the high-bit value 0x8000, whose candidate is
negative as an `int64_t`. -/
theorem C5_candidate_bits_witness :
    (0 : Int) ≤ 5 ∧ (5 : Int) < 2 ^ 48 ∧ 0x8000 ≤ 65535
      ∧ ((-2 ^ 63 ≤ candidateSeed 5 0x8000 ∧ candidateSeed 5 0x8000 < 2 ^ 63)
        ∧ candidateSeed 5 0x8000 % 2 ^ 64 = 5 + ((0x8000 : Nat) : Int) * 2 ^ 48
        ∧ candidateSeed 5 0x8000 % 2 ^ 48 = 5 % 2 ^ 48
        ∧ candidateSeed 5 0x8000 % 2 ^ 64 / 2 ^ 48 = ((0x8000 : Nat) : Int)
        ∧ ∀ j' : Nat, j' ≤ 65535 →
            candidateSeed 5 j' = candidateSeed 5 0x8000 → j' = 0x8000) :=
  ⟨by decide, by decide, by decide,
    C5_candidate_bits 5 0x8000 (by decide) (by decide) (by decide)⟩

/-! ## C6: the order of the enumeration -/

theorem search_append (E : Env) (cs₁ cs₂ : List Int) :
    search E (cs₁ ++ cs₂) = search E cs₁ ++ search E cs₂ := by
  induction cs₁ with
  | nil => rfl
  | cons c cs ih => rw [List.cons_append, search, search, ih, List.append_assoc]

theorem examined_sweep (E : Env) (base : Int) (n j : Nat) (hits : Int) :
    ∃ m, m ≤ n ∧ examined (sweep E base n j hits) = List.range' j m := by
  induction n generalizing j hits with
  | zero => exact ⟨0, le_refl 0, rfl⟩
  | succ n ih =>
    by_cases ha : Aborts E base hits j
    · rw [sweep_of_aborts E base hits n j ha]
      exact ⟨1, by omega, rfl⟩
    · rw [sweep_of_not_aborts E base hits n j ha, examined_append, candidate_examined]
      obtain ⟨m, hm, h⟩ := ih (j + 1) (if Passes E base j then hits + 1 else hits)
      rw [h]
      exact ⟨m + 1, by omega, by rw [List.range'_succ]; rfl⟩

theorem recorded_sweep_sorted (E : Env) (base : Int) (n j : Nat) (hits : Int) :
    ∃ js : List Nat, js.Pairwise (· < ·) ∧ (∀ i ∈ js, j ≤ i ∧ i < j + n)
      ∧ recorded (sweep E base n j hits) = js.map (candidateSeed base) := by
  induction n generalizing j hits with
  | zero => exact ⟨[], List.Pairwise.nil, by simp, rfl⟩
  | succ n ih =>
    by_cases ha : Aborts E base hits j
    · rw [sweep_of_aborts E base hits n j ha]
      exact ⟨[], List.Pairwise.nil, by simp, rfl⟩
    · rw [sweep_of_not_aborts E base hits n j ha, recorded_append, candidate_recorded]
      obtain ⟨js, h1, h2, h3⟩ := ih (j + 1) (if Passes E base j then hits + 1 else hits)
      rw [h3]
      by_cases hp : Passes E base j
      · rw [if_pos ⟨hp, ha⟩]
        refine ⟨j :: js, List.pairwise_cons.mpr ⟨fun i hi => ?_, h1⟩, ?_, rfl⟩
        · have := h2 i hi
          omega
        · intro i hi
          rcases List.mem_cons.mp hi with h | h
          · omega
          · have := h2 i h
            omega
      · rw [if_neg (fun hh => hp hh.1)]
        refine ⟨js, h1, fun i hi => ?_, rfl⟩
        have := h2 i hi
        omega

/-- C6: seed bases are processed in corpus order (the trace of a corpus is the trace
of its first part followed by the trace of the rest, and the trace of a single base
is that of one pass of the outer loop), so all seeds of an earlier base precede all
seeds of a later base; within one base the candidates examined are `0, 1, 2, ...` in
ascending order up to where the loop ends (at most 65536 of them), and the seeds
recorded are the candidates of a strictly increasing list of high-bit values in
`0..65535`, so that no seed is recorded twice. -/
theorem C6_deterministic_order (E : Env) :
    (∀ cs₁ cs₂ : List Int, search E (cs₁ ++ cs₂) = search E cs₁ ++ search E cs₂)
      ∧ (∀ cs₁ cs₂ : List Int,
          recorded (search E (cs₁ ++ cs₂)) = recorded (search E cs₁) ++ recorded (search E cs₂))
      ∧ (∀ c : Int, search E [c] = processBase E c)
      ∧ (∀ c : Int, ∃ m, m ≤ 65536 ∧ examined (processBase E c) = List.range m)
      ∧ (∀ c : Int, ∃ js : List Nat, js.Pairwise (· < ·) ∧ (∀ j ∈ js, j ≤ 65535)
          ∧ recorded (processBase E c) = js.map (candidateSeed (movedBase E c)))
      ∧ (∀ c : Int, (recorded (processBase E c)).Nodup) := by
  have hrec : ∀ c : Int, ∃ js : List Nat, js.Pairwise (· < ·) ∧ (∀ j ∈ js, j ≤ 65535)
      ∧ recorded (processBase E c) = js.map (candidateSeed (movedBase E c)) := by
    intro c
    rw [processBase_recorded]
    split_ifs
    · obtain ⟨js, h1, h2, h3⟩ := recorded_sweep_sorted E (movedBase E c) 0x10000 0 0
      refine ⟨js, h1, fun j hj => ?_, h3⟩
      have := h2 j hj
      omega
    · exact ⟨[], List.Pairwise.nil, by simp, rfl⟩
  refine ⟨search_append E, fun cs₁ cs₂ => ?_, fun c => ?_, fun c => ?_, hrec, fun c => ?_⟩
  · rw [search_append, recorded_append]
  · rw [search, search, List.append_nil]
  · rw [processBase_examined]
    split_ifs
    · obtain ⟨m, hm, h⟩ := examined_sweep E (movedBase E c) 0x10000 0 0
      exact ⟨m, hm, by rw [h, List.range_eq_range']⟩
    · exact ⟨0, by omega, rfl⟩
  · obtain ⟨js, h1, h2, h3⟩ := hrec c
    rw [h3]
    refine List.Nodup.map_on (fun x hx y hy hxy => ?_) ?_
    · exact candidateSeed_injOn _ x y (h2 x hx) (h2 y hy) hxy
    · exact h1.imp (fun h => Nat.ne_of_lt h)

/-! ## C7: block coordinates to region coordinates -/

theorem tdiv_of_nonneg (p : Int) (k : Int) (hp : 0 ≤ p) (hk : 0 ≤ k) : p.tdiv k = p / k :=
  Int.tdiv_eq_ediv hp hk

theorem tdiv_of_neg (p : Int) (k : Int) (hp : p ≤ 0) (hk : 0 ≤ k) : p.tdiv k = -((-p) / k) := by
  have h := Int.neg_tdiv (-p) k
  rw [neg_neg] at h
  rw [h, Int.tdiv_eq_ediv (by omega) hk]

theorem tdiv_16_32 (p : Int) : (p.tdiv 16).tdiv 32 = p.tdiv 512 := by
  rcases le_total 0 p with hp | hp
  · rw [tdiv_of_nonneg p 16 hp (by decide), tdiv_of_nonneg p 512 hp (by decide),
      tdiv_of_nonneg _ 32 (by omega) (by decide)]
    omega
  · rw [tdiv_of_neg p 16 hp (by decide), tdiv_of_neg p 512 hp (by decide),
      tdiv_of_neg _ 32 (by omega) (by decide)]
    omega

theorem regionOfBlock_eq (p : Int) : regionOfBlock p = wrap32 (p.tdiv 512) := by
  rw [regionOfBlock, tdiv_16_32]

/-- Counterexample to C7 as stated: the input line 1099511627776 (2^40) is accepted
as a value of `long`, its quotient by 512 is 2^31, and the conversion to `int` stores
-2^31 in the region coordinate. -/
theorem C7_counterexample :
    readCoord ['1', '0', '9', '9', '5', '1', '1', '6', '2', '7', '7', '7', '6']
        = .ok 1099511627776
      ∧ LONG_MIN ≤ 1099511627776 ∧ 1099511627776 ≤ LONG_MAX
      ∧ regionOfBlock 1099511627776 = -2147483648
      ∧ Int.tdiv 1099511627776 512 = 2147483648
      ∧ regionOfBlock 1099511627776 ≠ Int.tdiv 1099511627776 512 := by
  refine ⟨by rfl, by decide, by decide, by decide, by decide, by decide⟩

/-- C7, amended: the region coordinate stored for an accepted block coordinate `p` is
`p / 16 / 32 = p / 512` (C's truncating division) converted to `int`; it equals
`p / 512` exactly when that quotient fits an `int`, that is, exactly when
`-2^40 - 512 < p < 2^40`. -/
theorem C7_region_amended (p : Int) :
    regionOfBlock p = wrap32 (p.tdiv 512)
      ∧ (regionOfBlock p = p.tdiv 512 ↔ (-2 ^ 40 - 512 < p ∧ p < 2 ^ 40)) := by
  refine ⟨regionOfBlock_eq p, ?_⟩
  rw [regionOfBlock_eq]
  rcases le_total 0 p with hp | hp
  · rw [tdiv_of_nonneg p 512 hp (by decide)]
    unfold wrap32
    omega
  · rw [tdiv_of_neg p 512 hp (by decide)]
    unfold wrap32
    omega

/-! ## C8: the check of the interactive coordinates -/

theorem readCoord_eq (res : List Char) :
    readCoord res =
      if numDigits res = [] then .error "No digits were found"
      else if numValue res > LONG_MAX ∨ numValue res < LONG_MIN then .error "Outside of range"
      else .ok (numValue res) := by
  have hlen : numDigits res ≠ [] →
      res.length - (numRest res).length + (numDigits res).length ≠ 0 := by
    intro h
    have := List.length_pos.mpr h
    omega
  unfold readCoord strtol
  by_cases h0 : numDigits res = []
  · simp [h0, ERANGE]
  · by_cases h1 : numValue res > LONG_MAX
    · simp [h0, h1, ERANGE]
    · by_cases h2 : numValue res < LONG_MIN
      · simp [h0, h1, h2, ERANGE]
      · have h3 : ¬ (numValue res > LONG_MAX ∨ numValue res < LONG_MIN) := by
          rintro (h | h)
          · exact h1 h
          · exact h2 h
        simp only [h0, h1, h2, h3, if_false]
        simp [ERANGE, hlen h0]

theorem dropWhile_append_of_all (p : Char → Bool) (ws l : List Char)
    (h1 : ∀ c ∈ ws, p c = true) (h2 : ∀ c ∈ l.head?, p c = false) :
    (ws ++ l).dropWhile p = l := by
  induction ws with
  | nil =>
    cases l with
    | nil => rfl
    | cons c t =>
      have : p c = false := h2 c (by simp)
      simp [List.dropWhile, this]
  | cons w ws ih =>
    have hw : p w = true := h1 w (List.mem_cons_self w ws)
    rw [List.cons_append, List.dropWhile_cons, hw, if_pos rfl]
    exact ih (fun c hc => h1 c (List.mem_cons_of_mem w hc))

theorem takeWhile_append_of_all (p : Char → Bool) (ds l : List Char)
    (h1 : ∀ c ∈ ds, p c = true) (h2 : ∀ c ∈ l.head?, p c = false) :
    (ds ++ l).takeWhile p = ds := by
  induction ds with
  | nil =>
    cases l with
    | nil => rfl
    | cons c t =>
      have : p c = false := h2 c (by simp)
      simp [List.takeWhile, this]
  | cons d ds ih =>
    have hd : p d = true := h1 d (List.mem_cons_self d ds)
    rw [List.cons_append, List.takeWhile_cons, hd, if_pos rfl,
      ih (fun c hc => h1 c (List.mem_cons_of_mem d hc))]

theorem head?_dropWhile_not (p : Char → Bool) (l : List Char) :
    ∀ c ∈ (l.dropWhile p).head?, p c = false := by
  induction l with
  | nil => simp
  | cons a t ih =>
    by_cases ha : p a = true
    · simpa [List.dropWhile, ha] using ih
    · simp [List.dropWhile, ha]

theorem isspace_of_isdigit (c : Char) (h : isdigit c = true) : isspace c = false := by
  simp only [isdigit, Bool.and_eq_true, decide_eq_true_eq] at h
  simp only [isspace, Bool.or_eq_false_iff, Bool.and_eq_false_iff, beq_eq_false_iff_ne,
    decide_eq_false_iff_not]
  omega

theorem ne_minus_of_isdigit (c : Char) (h : isdigit c = true) : c ≠ minusChar := by
  rintro rfl
  exact absurd h (by decide)

theorem ne_plus_of_isdigit (c : Char) (h : isdigit c = true) : c ≠ plusChar := by
  rintro rfl
  exact absurd h (by decide)

theorem accepted_of_shape (ws sign ds tail : List Char)
    (hws : ∀ c ∈ ws, isspace c = true)
    (hsign : sign = [] ∨ sign = [minusChar] ∨ sign = [plusChar])
    (hne : ds ≠ []) (hds : ∀ c ∈ ds, isdigit c = true)
    (htail : ∀ c ∈ tail.head?, isdigit c = false) :
    numDigits (ws ++ (sign ++ (ds ++ tail))) = ds
      ∧ numValue (ws ++ (sign ++ (ds ++ tail)))
          = (if sign = [minusChar] then -(digitsValue ds : Int) else (digitsValue ds : Int)) := by
  obtain ⟨d, ds', rfl⟩ := List.exists_cons_of_ne_nil hne
  have hd : isdigit d = true := hds d (List.mem_cons_self d ds')
  have hbody : numBody (ws ++ (sign ++ (d :: ds' ++ tail))) = sign ++ (d :: ds' ++ tail) := by
    apply dropWhile_append_of_all _ _ _ hws
    rcases hsign with h | h | h <;> subst h
    · intro c hc
      simp only [List.nil_append, List.cons_append, List.head?_cons, Option.mem_def,
        Option.some.injEq] at hc
      subst hc
      exact isspace_of_isdigit _ hd
    · intro c hc
      simp only [List.cons_append, List.head?_cons, Option.mem_def, Option.some.injEq] at hc
      subst hc
      decide
    · intro c hc
      simp only [List.cons_append, List.head?_cons, Option.mem_def, Option.some.injEq] at hc
      subst hc
      decide
  have hrest : numRest (ws ++ (sign ++ (d :: ds' ++ tail))) = d :: ds' ++ tail := by
    unfold numRest
    rw [hbody]
    rcases hsign with h | h | h <;> subst h
    · have h1 := ne_minus_of_isdigit d hd
      have h2 := ne_plus_of_isdigit d hd
      simp [h1, h2]
    · simp
    · simp
  have hdig : numDigits (ws ++ (sign ++ (d :: ds' ++ tail))) = d :: ds' := by
    unfold numDigits
    rw [hrest]
    exact takeWhile_append_of_all _ _ _ hds htail
  refine ⟨hdig, ?_⟩
  unfold numValue
  rw [hbody, hdig]
  rcases hsign with h | h | h <;> subst h
  · have h1 := ne_minus_of_isdigit d hd
    simp [h1]
  · simp
  · have : plusChar ≠ minusChar := by decide
    simp [this]

theorem shape_of_digits (res : List Char) (h : numDigits res ≠ []) :
    ∃ ws sign ds tail : List Char,
      res = ws ++ (sign ++ (ds ++ tail))
        ∧ (∀ c ∈ ws, isspace c = true)
        ∧ (sign = [] ∨ sign = [minusChar] ∨ sign = [plusChar])
        ∧ ds ≠ [] ∧ (∀ c ∈ ds, isdigit c = true)
        ∧ (∀ c ∈ tail.head?, isdigit c = false) := by
  have hsplit : res = res.takeWhile isspace ++ numBody res :=
    (List.takeWhile_append_dropWhile isspace res).symm
  have hrest : numRest res = numDigits res ++ (numRest res).dropWhile isdigit :=
    (List.takeWhile_append_dropWhile isdigit (numRest res)).symm
  have hws : ∀ c ∈ res.takeWhile isspace, isspace c = true :=
    fun c hc => List.mem_takeWhile_imp hc
  have hds : ∀ c ∈ numDigits res, isdigit c = true := fun c hc => List.mem_takeWhile_imp hc
  have htail := head?_dropWhile_not isdigit (numRest res)
  by_cases hs : (numBody res).head? = some minusChar ∨ (numBody res).head? = some plusChar
  · have hr : numRest res = (numBody res).tail := by
      unfold numRest
      rw [if_pos hs]
    obtain ⟨c, hc, hbody⟩ : ∃ c, (c = minusChar ∨ c = plusChar) ∧
        numBody res = c :: (numBody res).tail := by
      cases hb : numBody res with
      | nil => simp [hb] at hs
      | cons a t =>
        rw [hb] at hs
        simp only [List.head?_cons, Option.some.injEq] at hs
        exact ⟨a, hs, rfl⟩
    refine ⟨res.takeWhile isspace, [c], numDigits res, (numRest res).dropWhile isdigit,
      ?_, hws, ?_, h, hds, htail⟩
    · rw [← hrest, hr, List.singleton_append, ← hbody]
      exact hsplit
    · rcases hc with rfl | rfl
      · exact Or.inr (Or.inl rfl)
      · exact Or.inr (Or.inr rfl)
  · have hr : numRest res = numBody res := by
      unfold numRest
      rw [if_neg hs]
    refine ⟨res.takeWhile isspace, [], numDigits res, (numRest res).dropWhile isdigit,
      ?_, hws, Or.inl rfl, h, hds, htail⟩
    rw [← hrest, hr, List.nil_append]
    exact hsplit

theorem acceptedLine_iff (res : List Char) (v : Int) :
    AcceptedLine res v ↔
      numDigits res ≠ [] ∧ v = numValue res ∧ LONG_MIN ≤ v ∧ v ≤ LONG_MAX := by
  constructor
  · rintro ⟨ws, sign, ds, tail, rfl, hws, hsign, hne, hds, htail, hv, h1, h2⟩
    obtain ⟨e1, e2⟩ := accepted_of_shape ws sign ds tail hws hsign hne hds htail
    rw [e1, e2]
    exact ⟨hne, hv, h1, h2⟩
  · rintro ⟨hne, hv, h1, h2⟩
    obtain ⟨ws, sign, ds, tail, hres, hws, hsign, hne', hds, htail⟩ := shape_of_digits res hne
    obtain ⟨_, e2⟩ := accepted_of_shape ws sign ds tail hws hsign hne' hds htail
    refine ⟨ws, sign, ds, tail, hres, hws, hsign, hne', hds, htail, ?_, h1, h2⟩
    rw [hv, ← e2, ← hres]

theorem readCoord_ok_iff (res : List Char) (v : Int) :
    readCoord res = .ok v ↔ AcceptedLine res v := by
  rw [acceptedLine_iff, readCoord_eq]
  by_cases h0 : numDigits res = []
  · simp [h0]
  · by_cases h1 : numValue res > LONG_MAX ∨ numValue res < LONG_MIN
    · rw [if_neg h0, if_pos h1]
      constructor
      · intro h
        cases h
      · rintro ⟨_, rfl, h2, h3⟩
        omega
    · rw [if_neg h0, if_neg h1]
      constructor
      · intro h
        cases h
        exact ⟨h0, rfl, by omega, by omega⟩
      · rintro ⟨_, rfl, _, _⟩
        rfl

theorem readCoord_error_iff (res : List Char) :
    (∃ msg, readCoord res = .error msg) ↔ ¬ ∃ v, AcceptedLine res v := by
  constructor
  · rintro ⟨msg, hmsg⟩ ⟨v, hv⟩
    rw [(readCoord_ok_iff res v).mpr hv] at hmsg
    cases hmsg
  · intro h
    cases hr : readCoord res with
    | error msg => exact ⟨msg, rfl⟩
    | ok v => exact absurd ⟨v, (readCoord_ok_iff res v).mp hr⟩ h

theorem readCoord_of_wellFormed (line : List Char) (hw : wellFormedInt line = true)
    (h1 : LONG_MIN ≤ intValue line) (h2 : intValue line ≤ LONG_MAX) :
    readCoord line = .ok (intValue line) := by
  rw [readCoord_ok_iff]
  cases line with
  | nil => simp [wellFormedInt] at hw
  | cons c rest =>
    by_cases hc : c = minusChar
    · subst hc
      simp only [wellFormedInt, if_pos, Bool.and_eq_true, Bool.not_eq_true',
        List.isEmpty_eq_false, List.all_eq_true] at hw
      simp only [intValue, if_pos] at h1 h2
      refine ⟨[], [minusChar], rest, [], by simp, by simp, Or.inr (Or.inl rfl), ?_, hw.2,
        by simp, ?_, ?_, ?_⟩
      · intro h
        simp [h] at hw
      · simp [intValue]
      · simpa [intValue] using h1
      · simpa [intValue] using h2
    · simp only [wellFormedInt, if_neg hc, List.all_eq_true] at hw
      simp only [intValue, if_neg hc] at h1 h2
      refine ⟨[], [], c :: rest, [], by simp, by simp, Or.inl rfl, by simp, hw, by simp,
        ?_, ?_, ?_⟩
      · simp [intValue, hc]
      · simpa [intValue, hc] using h1
      · simpa [intValue, hc] using h2

/-- Counterexample to C8 as stated: the line `12abc`, a number followed by trailing
non-digit characters, is not a well-formed decimal integer, yet the check accepts it
with the value 12 and `main` goes on to the search. -/
theorem C8_counterexample :
    wellFormedInt ['1', '2', 'a', 'b', 'c'] = false
      ∧ readCoord ['1', '2', 'a', 'b', 'c'] = .ok 12
      ∧ mainInteractive worldEmpty ['1', '.', '7'] ['1', '2', 'a', 'b', 'c']
          ['1', '2', 'a', 'b', 'c'] = .ok (runSearch worldEmpty MC_1_7 0 0) := by
  refine ⟨by decide, by rfl, by rfl⟩

/-- C8, amended: a coordinate input line is accepted exactly when, after optional
leading white space and an optional sign, it starts with one or more decimal digits
whose signed value is within the range of `long`; whatever follows the digits is
ignored. Every other line (empty, non-numeric, out of range) makes the program end
with a diagnostic and a failure status before any search work is done, the first
coordinate being checked before the second. In particular every well-formed
in-range integer is accepted with its value. -/
theorem C8_input_check_amended (W : World) (verLine xLine zLine : List Char) :
    (∀ line : List Char, ∀ v : Int, readCoord line = .ok v ↔ AcceptedLine line v)
      ∧ (∀ line : List Char, (∃ msg, readCoord line = .error msg) ↔ ¬ ∃ v, AcceptedLine line v)
      ∧ (∀ line : List Char, wellFormedInt line = true → LONG_MIN ≤ intValue line →
          intValue line ≤ LONG_MAX → readCoord line = .ok (intValue line))
      ∧ ((¬ ∃ v, AcceptedLine xLine v) →
          ∃ msg, mainInteractive W verLine xLine zLine = .error msg)
      ∧ ((¬ ∃ v, AcceptedLine zLine v) →
          ∃ msg, mainInteractive W verLine xLine zLine = .error msg)
      ∧ (∀ vx vz : Int, AcceptedLine xLine vx → AcceptedLine zLine vz →
          mainInteractive W verLine xLine zLine
            = .ok (runSearch W (interactiveVersion verLine) (regionOfBlock vx)
                (regionOfBlock vz))) := by
  refine ⟨readCoord_ok_iff, readCoord_error_iff, readCoord_of_wellFormed, ?_, ?_, ?_⟩
  · intro h
    obtain ⟨msg, hmsg⟩ := (readCoord_error_iff xLine).mpr h
    exact ⟨msg, by rw [mainInteractive, hmsg]⟩
  · intro h
    obtain ⟨msg, hmsg⟩ := (readCoord_error_iff zLine).mpr h
    cases hx : readCoord xLine with
    | error m => exact ⟨m, by rw [mainInteractive, hx]⟩
    | ok vx => exact ⟨msg, by rw [mainInteractive, hx]; simp only []; rw [hmsg]⟩
  · intro vx vz hx hz
    rw [mainInteractive, (readCoord_ok_iff xLine vx).mpr hx]
    simp only []
    rw [(readCoord_ok_iff zLine vz).mpr hz]

/-! ## C9: the version names and their hashes -/

/-- C9: for each of the ten version names the prompt offers, `str2int(name, 0)` equals
the case constant that `parse_version` associates with that version, so
`parse_version(name)` is the matching version, in the order `MC_1_7` ... `MC_1_15`,
and never the unknown value `MC_LEG`. -/
theorem C9_version_hashes :
    (versions.take 10).map (fun name => str2int name.toList 0)
        = [193357645, 193366850, 193367875, 2085846491, 2085882490, 2085918233,
            2085954232, 3841915620, 2085703007, 2085739006]
      ∧ (versions.take 10).map (fun name => parse_version name.toList)
        = [MC_1_7, MC_1_8, MC_1_9, MC_1_10, MC_1_11, MC_1_12, MC_1_13, MC_1_13_2,
            MC_1_14, MC_1_15]
      ∧ versions.take 10
        = ["1.7", "1.8", "1.9", "1.10", "1.11", "1.12", "1.13", "1.13.2", "1.14", "1.15"]
      ∧ ∀ name ∈ versions.take 10, parse_version name.toList ≠ MC_LEG := by
  decide

theorem str2int_signed_char_example :
    str2int [Char.ofNat 0x91, Char.ofNat 0x3c, Char.ofNat 0x3d, Char.ofNat 0x34,
        Char.ofNat 0x61, Char.ofNat 0x78] 0 = 2085954232
      ∧ parse_version [Char.ofNat 0x91, Char.ofNat 0x3c, Char.ofNat 0x3d, Char.ofNat 0x34,
        Char.ofNat 0x61, Char.ofNat 0x78] = MC_1_13
      ∧ parse_version ['1', '.', '7', Char.ofNat 0, 'x'] = MC_1_7 := by
  decide

/-! ## C10: the version selector of the command line -/

/-- C10, the code at the failing input: with the third argument 17 the command-line
path stores `mcversion = 17`, which is not below `MC_1_13 = 6`, so lines 150-163
choose `SWAMP_HUT_CONFIG` and the file `quadhutbases_1_13_Q1.txt`, the same
configuration as for 113; the configuration the usage message promises for 17 is
chosen only for values below `MC_1_13`, such as `MC_1_7`. -/
theorem C10_cli_selector_at_17 :
    cliVersion 4 (some 17) = 17
      ∧ selectSetup (cliVersion 4 (some 17))
          = ⟨.SWAMP_HUT_CONFIG, "./quadhutbases_1_13_Q1.txt", true⟩
      ∧ selectSetup (cliVersion 4 (some 113))
          = ⟨.SWAMP_HUT_CONFIG, "./quadhutbases_1_13_Q1.txt", true⟩
      ∧ selectSetup (cliVersion 3 none)
          = ⟨.FEATURE_CONFIG, "./quadhutbases_1_7_Q1.txt", false⟩
      ∧ selectSetup MC_1_7 = ⟨.FEATURE_CONFIG, "./quadhutbases_1_7_Q1.txt", false⟩ := by
  decide

/-! ## C11: the result log round trip -/

theorem digitChar_toNat (d : Nat) (h : d < 10) : (digitChar d).toNat = 48 + d := by
  interval_cases d <;> rfl

theorem isdigit_digitChar (d : Nat) (h : d < 10) : isdigit (digitChar d) = true := by
  interval_cases d <;> rfl

theorem digitsValue_append_single (l : List Char) (c : Char) :
    digitsValue (l ++ [c]) = 10 * digitsValue l + (c.toNat - 48) := by
  simp [digitsValue, List.foldl_append]

theorem decimal_spec (fuel n : Nat) (h : n < 10 ^ (fuel + 1)) :
    digitsValue (decimal (fuel + 1) n) = n ∧ decimal (fuel + 1) n ≠ []
      ∧ ∀ c ∈ decimal (fuel + 1) n, isdigit c = true := by
  induction fuel generalizing n with
  | zero =>
    have h10 : n < 10 := by simpa using h
    rw [decimal, if_pos h10]
    refine ⟨?_, by simp, ?_⟩
    · simp [digitsValue, digitChar_toNat n h10]
    · intro c hc
      rw [List.mem_singleton] at hc
      rw [hc]
      exact isdigit_digitChar n h10
  | succ f ih =>
    rw [decimal]
    by_cases h10 : n < 10
    · rw [if_pos h10]
      refine ⟨?_, by simp, ?_⟩
      · simp [digitsValue, digitChar_toNat n h10]
      · intro c hc
        rw [List.mem_singleton] at hc
        rw [hc]
        exact isdigit_digitChar n h10
    · rw [if_neg h10]
      have hq : n / 10 < 10 ^ (f + 1) := by
        rw [Nat.div_lt_iff_lt_mul (by norm_num)]
        rw [pow_succ] at h
        exact h
      obtain ⟨h1, h2, h3⟩ := ih (n / 10) hq
      have hm : n % 10 < 10 := Nat.mod_lt n (by norm_num)
      refine ⟨?_, by simp, ?_⟩
      · rw [digitsValue_append_single, h1, digitChar_toNat _ hm]
        omega
      · intro c hc
        rw [List.mem_append, List.mem_singleton] at hc
        rcases hc with hc | hc
        · exact h3 c hc
        · rw [hc]
          exact isdigit_digitChar _ hm

theorem numRest_of_shape (ws sign ds tail : List Char)
    (hws : ∀ c ∈ ws, isspace c = true)
    (hsign : sign = [] ∨ sign = [minusChar] ∨ sign = [plusChar])
    (hne : ds ≠ []) (hds : ∀ c ∈ ds, isdigit c = true) :
    numRest (ws ++ (sign ++ (ds ++ tail))) = ds ++ tail := by
  obtain ⟨d, ds', rfl⟩ := List.exists_cons_of_ne_nil hne
  have hd : isdigit d = true := hds d (List.mem_cons_self d ds')
  have hbody : numBody (ws ++ (sign ++ (d :: ds' ++ tail))) = sign ++ (d :: ds' ++ tail) := by
    apply dropWhile_append_of_all _ _ _ hws
    rcases hsign with h | h | h <;> subst h
    · intro c hc
      simp only [List.nil_append, List.cons_append, List.head?_cons, Option.mem_def,
        Option.some.injEq] at hc
      subst hc
      exact isspace_of_isdigit _ hd
    · intro c hc
      simp only [List.cons_append, List.head?_cons, Option.mem_def, Option.some.injEq] at hc
      subst hc
      decide
    · intro c hc
      simp only [List.cons_append, List.head?_cons, Option.mem_def, Option.some.injEq] at hc
      subst hc
      decide
  unfold numRest
  rw [hbody]
  rcases hsign with h | h | h <;> subst h
  · have h1 := ne_minus_of_isdigit d hd
    have h2 := ne_plus_of_isdigit d hd
    simp [h1, h2]
  · simp
  · simp

/-- What `strtol` returns on a text made of an optional sign, digits whose signed
value is in range, and a rest that does not start with a digit: the value, with all
of the number consumed and no error. -/
theorem strtol_of_shape (sign ds tail : List Char)
    (hsign : sign = [] ∨ sign = [minusChar] ∨ sign = [plusChar])
    (hne : ds ≠ []) (hds : ∀ c ∈ ds, isdigit c = true)
    (htail : ∀ c ∈ tail.head?, isdigit c = false)
    (h1 : LONG_MIN ≤ (if sign = [minusChar] then -(digitsValue ds : Int)
      else (digitsValue ds : Int)))
    (h2 : (if sign = [minusChar] then -(digitsValue ds : Int)
      else (digitsValue ds : Int)) ≤ LONG_MAX) :
    strtol (sign ++ (ds ++ tail))
      = ⟨if sign = [minusChar] then -(digitsValue ds : Int) else (digitsValue ds : Int),
          sign.length + ds.length, 0⟩ := by
  obtain ⟨e1, e2⟩ := accepted_of_shape [] sign ds tail (by simp) hsign hne hds htail
  have e3 := numRest_of_shape [] sign ds tail (by simp) hsign hne hds
  rw [List.nil_append] at e1 e2 e3
  unfold strtol
  rw [e1, e2, e3, if_neg hne, if_neg (by omega), if_neg (by omega)]
  congr 1
  simp only [List.length_append]
  omega

theorem printInt64_shape (v : Int) (h1 : -2 ^ 63 ≤ v) (h2 : v < 2 ^ 63) :
    ∃ sign ds : List Char, printInt64 v = sign ++ ds
      ∧ (sign = [] ∨ sign = [minusChar] ∨ sign = [plusChar])
      ∧ ds ≠ [] ∧ (∀ c ∈ ds, isdigit c = true)
      ∧ (if sign = [minusChar] then -(digitsValue ds : Int) else (digitsValue ds : Int)) = v := by
  unfold printInt64
  by_cases hv : v < 0
  · rw [if_pos hv]
    obtain ⟨d1, d2, d3⟩ := decimal_spec 19 (-v).toNat (by omega)
    refine ⟨[minusChar], decimal 20 (-v).toNat, rfl, Or.inr (Or.inl rfl), d2, d3, ?_⟩
    rw [if_pos rfl, d1]
    omega
  · rw [if_neg hv]
    obtain ⟨d1, d2, d3⟩ := decimal_spec 19 v.toNat (by omega)
    refine ⟨[], decimal 20 v.toNat, rfl, Or.inl rfl, d2, d3, ?_⟩
    rw [if_neg (by simp), d1]
    omega

theorem wrap64_range (x : Int) : -2 ^ 63 ≤ wrap64 x ∧ wrap64 x < 2 ^ 63 := by
  unfold wrap64
  omega

theorem strtol_printInt64 (v : Int) (h1 : -2 ^ 63 ≤ v) (h2 : v < 2 ^ 63) (tail : List Char)
    (htail : ∀ c ∈ tail.head?, isdigit c = false) :
    strtol (printInt64 v ++ tail) = ⟨v, (printInt64 v).length, 0⟩ := by
  obtain ⟨sign, ds, hp, hsign, hne, hds, hval⟩ := printInt64_shape v h1 h2
  have hr := strtol_of_shape sign ds tail hsign hne hds htail
    (by rw [hval]; unfold LONG_MIN; omega) (by rw [hval]; unfold LONG_MAX; omega)
  rw [hp, List.append_assoc, hr, hval, List.length_append]

/-- C11: every seed value the search can record, negative ones included, is written
to the log as a signed decimal text that parses back (with `strtol` for a 64-bit
`long`, that is, as a 64-bit signed integer) to exactly the original value, with all
of the text consumed and no range error; this holds for the text alone and for the
log line with its newline, and for every value of `int64_t`. -/
theorem C11_log_round_trip (base : Int) (j : Nat) (v : Int) :
    strtol (printInt64 (candidateSeed base j))
        = ⟨candidateSeed base j, (printInt64 (candidateSeed base j)).length, 0⟩
      ∧ strtol (logLine (candidateSeed base j))
        = ⟨candidateSeed base j, (printInt64 (candidateSeed base j)).length, 0⟩
      ∧ strtol (printInt64 (wrap64 v)) = ⟨wrap64 v, (printInt64 (wrap64 v)).length, 0⟩
      ∧ strtol (logLine (wrap64 v)) = ⟨wrap64 v, (printInt64 (wrap64 v)).length, 0⟩ := by
  have hnl : ∀ c ∈ [Char.ofNat 10].head?, isdigit c = false := by
    intro c hc
    simp only [List.head?_cons, Option.mem_def, Option.some.injEq] at hc
    subst hc
    decide
  have hc := wrap64_range (base + shl48 (j : Int))
  have hv := wrap64_range v
  have key : ∀ w : Int, -2 ^ 63 ≤ w → w < 2 ^ 63 →
      strtol (printInt64 w) = ⟨w, (printInt64 w).length, 0⟩ := by
    intro w w1 w2
    have := strtol_printInt64 w w1 w2 [] (by simp)
    rwa [List.append_nil] at this
  exact ⟨key _ hc.1 hc.2, strtol_printInt64 _ hc.1 hc.2 _ hnl, key _ hv.1 hv.2,
    strtol_printInt64 _ hv.1 hv.2 _ hnl⟩

theorem printInt64_negative_example :
    printInt64 (candidateSeed 5 0x8000)
      = ['-', '9', '2', '2', '3', '3', '7', '2', '0', '3', '6', '8', '5', '4', '7', '7', '5',
          '8', '0', '3'] := by
  rfl

/-! ## Lemmas on the adaptive check and on the end of the loop -/

theorem adaptiveAt_append (a b : List Event) :
    adaptiveAt (a ++ b) = adaptiveAt a ++ adaptiveAt b := by
  simp [adaptiveAt]

theorem adaptiveAt_cons (e : Event) (t : List Event) :
    adaptiveAt (e :: t) = adaptiveAt [e] ++ adaptiveAt t := adaptiveAt_append [e] t

theorem checksAfter_append (a b : List Event) (r : Nat) :
    checksAfter r (a ++ b) = checksAfter r a ++ checksAfter (r + (recorded a).length) b := by
  induction a generalizing r with
  | nil => rfl
  | cons e t ih =>
    cases e <;> simp [checksAfter, ih, recorded, Nat.add_assoc, Nat.add_comm 1]

theorem confirm_adaptiveAt (E : Env) (base hits : Int) (j : Nat) :
    adaptiveAt (confirm E base hits j).1 = [] := by
  unfold confirm
  simp only []
  split_ifs <;> simp [adaptiveAt]

theorem confirm_checksAfter (E : Env) (base hits : Int) (j r : Nat) :
    checksAfter r (confirm E base hits j).1 = [] := by
  unfold confirm
  simp only []
  split_ifs <;> simp [checksAfter]

theorem confirm_ne_nil (E : Env) (base hits : Int) (j : Nat) :
    (confirm E base hits j).1 ≠ [] := by
  unfold confirm
  simp only []
  split_ifs <;> simp

theorem confirm_getLast (E : Env) (base hits : Int) (j i : Nat) (s : Int) :
    (confirm E base hits j).1.getLast? ≠ some (.adaptive i s) := by
  unfold confirm
  simp only []
  split_ifs <;> simp

theorem confirm_not_mem_adaptive (E : Env) (base hits : Int) (j i : Nat) (s : Int) :
    Event.adaptive i s ∉ (confirm E base hits j).1 := by
  unfold confirm
  simp only []
  split_ifs <;> simp

theorem candidate_stop_iff (E : Env) (base hits : Int) (j : Nat) :
    (candidate E base hits j).2 = .stop ↔ Aborts E base hits j := by
  constructor
  · intro h
    by_contra ha
    rw [candidate_flow E base hits j ha] at h
    cases h
  · intro h
    rw [candidate_of_aborts E base hits j h]

theorem candidate_adaptive_mem (E : Env) (base hits : Int) (j i : Nat) (s : Int)
    (h : Event.adaptive i s ∈ (candidate E base hits j).1) :
    i = j ∧ s = swampCount E (candidateSeed base j) ∧ seDraw E (candidateSeed base j) = 5
      ∧ hits = 0 ∧ j &&& 0xfff = 0xfff := by
  by_cases h1 : seDraw E (candidateSeed base j) = 5
  · by_cases h2 : hits = 0 ∧ j &&& 0xfff = 0xfff
    · by_cases h3 : swampCount E (candidateSeed base j) < (if j > 0x1000 then 2 else 1)
      · rw [candidate_of_aborts E base hits j ⟨h1, h2, h3⟩] at h
        simp only [List.mem_cons, List.mem_singleton, Event.adaptive.injEq, List.not_mem_nil,
          or_false, false_or, reduceCtorEq] at h
        exact ⟨h.1, h.2, h1, h2.1, h2.2⟩
      · rw [candidate_of_checked E base hits j h1 h2 h3] at h
        simp only [List.mem_cons, Event.adaptive.injEq, false_or, reduceCtorEq] at h
        rcases h with h | h
        · exact ⟨h.1, h.2, h1, h2.1, h2.2⟩
        · exact absurd h (confirm_not_mem_adaptive E base hits j i s)
    · rw [candidate_of_unchecked E base hits j h1 h2] at h
      simp only [List.mem_cons, false_or, reduceCtorEq] at h
      exact absurd h (confirm_not_mem_adaptive E base hits j i s)
  · rw [candidate_of_miss E base hits j h1] at h
    simp at h

theorem candidate_checksAfter (E : Env) (base hits : Int) (j r : Nat) :
    checksAfter r (candidate E base hits j).1 =
      if seDraw E (candidateSeed base j) = 5 ∧ (hits = 0 ∧ j &&& 0xfff = 0xfff)
      then [(j, r)] else [] := by
  by_cases h1 : seDraw E (candidateSeed base j) = 5
  · by_cases h2 : hits = 0 ∧ j &&& 0xfff = 0xfff
    · by_cases h3 : swampCount E (candidateSeed base j) < (if j > 0x1000 then 2 else 1)
      · rw [candidate_of_aborts E base hits j ⟨h1, h2, h3⟩, if_pos ⟨h1, h2⟩]
        rfl
      · rw [candidate_of_checked E base hits j h1 h2 h3, if_pos ⟨h1, h2⟩]
        simp only [checksAfter, confirm_checksAfter]
    · rw [candidate_of_unchecked E base hits j h1 h2, if_neg (fun h => h2 h.2)]
      simp only [checksAfter, confirm_checksAfter]
  · rw [candidate_of_miss E base hits j h1, if_neg (fun h => h1 h.1)]
    rfl

theorem candidate_adaptiveAt (E : Env) (base hits : Int) (j : Nat) :
    adaptiveAt (candidate E base hits j).1 =
      if seDraw E (candidateSeed base j) = 5 ∧ (hits = 0 ∧ j &&& 0xfff = 0xfff)
      then [j] else [] := by
  by_cases h1 : seDraw E (candidateSeed base j) = 5
  · by_cases h2 : hits = 0 ∧ j &&& 0xfff = 0xfff
    · by_cases h3 : swampCount E (candidateSeed base j) < (if j > 0x1000 then 2 else 1)
      · rw [candidate_of_aborts E base hits j ⟨h1, h2, h3⟩, if_pos ⟨h1, h2⟩]
        rfl
      · rw [candidate_of_checked E base hits j h1 h2 h3, if_pos ⟨h1, h2⟩]
        simp only [adaptiveAt_cons _ (_ :: _), adaptiveAt_cons _ (confirm E base hits j).1,
          confirm_adaptiveAt]
        rfl
    · rw [candidate_of_unchecked E base hits j h1 h2, if_neg (fun h => h2 h.2)]
      simp only [adaptiveAt_cons _ (confirm E base hits j).1, confirm_adaptiveAt]
      rfl
  · rw [candidate_of_miss E base hits j h1, if_neg (fun h => h1 h.1)]
    rfl

theorem candidate_getLast (E : Env) (base hits : Int) (j i : Nat) (s : Int)
    (ha : ¬ Aborts E base hits j) :
    (candidate E base hits j).1.getLast? ≠ some (.adaptive i s) := by
  have hc := confirm_getLast E base hits j i s
  have hn := confirm_ne_nil E base hits j
  obtain ⟨e, t, het⟩ := List.exists_cons_of_ne_nil hn
  by_cases h1 : seDraw E (candidateSeed base j) = 5
  · by_cases h2 : hits = 0 ∧ j &&& 0xfff = 0xfff
    · have h3 : ¬ swampCount E (candidateSeed base j) < (if j > 0x1000 then 2 else 1) :=
        fun h3 => ha ⟨h1, h2, h3⟩
      rw [candidate_of_checked E base hits j h1 h2 h3]
      rw [het] at hc ⊢
      simpa [List.getLast?_cons] using hc
    · rw [candidate_of_unchecked E base hits j h1 h2]
      rw [het] at hc ⊢
      simpa [List.getLast?_cons] using hc
  · rw [candidate_of_miss E base hits j h1]
    simp

theorem candidate_ne_nil (E : Env) (base hits : Int) (j : Nat) :
    (candidate E base hits j).1 ≠ [] := by
  intro h
  have := candidate_examined E base hits j
  rw [h] at this
  cases this

theorem breakIndex_of_aborts (E : Env) (base hits : Int) (n j : Nat)
    (h : Aborts E base hits j) : breakIndex E base (n + 1) j hits = some j := by
  rw [breakIndex, (candidate_stop_iff E base hits j).mpr h]

theorem breakIndex_of_not_aborts (E : Env) (base hits : Int) (n j : Nat)
    (h : ¬ Aborts E base hits j) :
    breakIndex E base (n + 1) j hits
      = breakIndex E base n (j + 1) (if Passes E base j then hits + 1 else hits) := by
  rw [breakIndex, candidate_flow E base hits j h]

theorem breakIndex_bounds (E : Env) (base : Int) (n j b : Nat) (hits : Int)
    (h : breakIndex E base n j hits = some b) : j ≤ b ∧ b < j + n := by
  induction n generalizing j hits with
  | zero => simp [breakIndex] at h
  | succ n ih =>
    by_cases ha : Aborts E base hits j
    · rw [breakIndex_of_aborts E base hits n j ha] at h
      cases h
      omega
    · rw [breakIndex_of_not_aborts E base hits n j ha] at h
      have := ih _ _ h
      omega

theorem hitsAfter_eq (E : Env) (base : Int) (n j : Nat) (hits : Int) :
    hitsAfter E base n j hits = hits + ((recorded (sweep E base n j hits)).length : Nat) := by
  induction n generalizing j hits with
  | zero => simp [hitsAfter, sweep, recorded]
  | succ n ih =>
    by_cases ha : Aborts E base hits j
    · rw [hitsAfter, (candidate_stop_iff E base hits j).mpr ha,
        sweep_of_aborts E base hits n j ha]
      simp [recorded]
    · rw [hitsAfter, candidate_flow E base hits j ha, sweep_of_not_aborts E base hits n j ha,
        recorded_append, candidate_recorded]
      simp only []
      rw [ih]
      by_cases hp : Passes E base j
      · rw [if_pos hp, if_pos ⟨hp, ha⟩]
        simp only [List.length_append, List.length_singleton]
        push_cast
        omega
      · rw [if_neg hp, if_neg (fun h => hp h.1)]
        simp

/-- The observations of the loop in terms of where it is left: with `L` the candidate
of the `break`, or the end `j + n` of the range when there is none, the candidates
below `L` make their pass in full, and the trace ends with the pass of `L` itself
when the loop breaks there. -/
theorem sweep_exact (E : Env) (base : Int) (n j : Nat) (hits : Int) :
    recorded (sweep E base n j hits)
        = ((List.range' j ((breakIndex E base n j hits).getD (j + n) - j)).filter
            fun i => decide (Passes E base i)).map (candidateSeed base)
      ∧ fullGen (sweep E base n j hits)
        = (List.range' j ((breakIndex E base n j hits).getD (j + n) - j)).filter
            (fun i => decide (seDraw E (candidateSeed base i) = 5
              ∧ macroBiome E (candidateSeed base i) = E.lib.Swamp))
      ∧ examined (sweep E base n j hits)
        = List.range' j ((breakIndex E base n j hits).getD (j + n) - j)
            ++ (breakIndex E base n j hits).toList := by
  induction n generalizing j hits with
  | zero => simp [sweep, breakIndex, recorded, fullGen, examined]
  | succ n ih =>
    by_cases ha : Aborts E base hits j
    · rw [sweep_of_aborts E base hits n j ha, breakIndex_of_aborts E base hits n j ha]
      simp [recorded, fullGen, examined]
    · obtain ⟨i1, i2, i3⟩ := ih (j + 1) (if Passes E base j then hits + 1 else hits)
      rw [sweep_of_not_aborts E base hits n j ha, breakIndex_of_not_aborts E base hits n j ha,
        recorded_append, fullGen_append, examined_append, i1, i2, i3, candidate_recorded,
        candidate_fullGen, candidate_examined]
      have hL : j + 1 ≤ (breakIndex E base n (j + 1)
          (if Passes E base j then hits + 1 else hits)).getD (j + (n + 1)) := by
        cases hb : breakIndex E base n (j + 1) (if Passes E base j then hits + 1 else hits) with
        | none => simp
        | some b =>
          have := breakIndex_bounds E base n (j + 1) b _ hb
          simp only [Option.getD_some]
          omega
      generalize (breakIndex E base n (j + 1)
        (if Passes E base j then hits + 1 else hits)) = ob at hL ⊢
      rw [show j + 1 + n = j + (n + 1) by omega]
      generalize ob.getD (j + (n + 1)) = L at hL ⊢
      obtain ⟨k, rfl⟩ : ∃ k, L = j + 1 + k := ⟨L - (j + 1), by omega⟩
      rw [show j + 1 + k - (j + 1) = k by omega, show j + 1 + k - j = k + 1 by omega]
      refine ⟨?_, ?_, ?_⟩
      · by_cases hp : Passes E base j
        · rw [if_pos ⟨hp, ha⟩, range'_filter_cons_pos _ j k (by simpa using hp)]
          rfl
        · rw [if_neg (fun h => hp h.1), range'_filter_cons_neg _ j k (by simpa using hp)]
          rfl
      · by_cases hq : seDraw E (candidateSeed base j) = 5
            ∧ macroBiome E (candidateSeed base j) = E.lib.Swamp
        · rw [if_pos ⟨hq.1, ha, hq.2⟩, range'_filter_cons_pos _ j k (by simpa using hq)]
          rfl
        · rw [if_neg (fun hh => hq ⟨hh.1, hh.2.2⟩),
            range'_filter_cons_neg _ j k (by simpa using hq)]
          rfl
      · rw [List.range'_succ]
        rfl

theorem sweep_getLast_of_break (E : Env) (base : Int) (n j b : Nat) (hits : Int)
    (h : breakIndex E base n j hits = some b) :
    (sweep E base n j hits).getLast?
      = some (.adaptive b (swampCount E (candidateSeed base b))) := by
  induction n generalizing j hits with
  | zero => simp [breakIndex] at h
  | succ n ih =>
    by_cases ha : Aborts E base hits j
    · rw [breakIndex_of_aborts E base hits n j ha] at h
      have hb : j = b := Option.some.inj h
      subst hb
      rw [sweep_of_aborts E base hits n j ha]
      simp [List.getLast?_cons]
    · rw [breakIndex_of_not_aborts E base hits n j ha] at h
      rw [sweep_of_not_aborts E base hits n j ha, List.getLast?_append, ih _ _ h]
      rfl

theorem sweep_getLast_of_no_break (E : Env) (base : Int) (n j : Nat) (hits : Int)
    (h : breakIndex E base n j hits = none) (i : Nat) (s : Int) :
    (sweep E base n j hits).getLast? ≠ some (.adaptive i s) := by
  induction n generalizing j hits with
  | zero => simp [sweep]
  | succ n ih =>
    by_cases ha : Aborts E base hits j
    · rw [breakIndex_of_aborts E base hits n j ha] at h
      cases h
    · rw [breakIndex_of_not_aborts E base hits n j ha] at h
      rw [sweep_of_not_aborts E base hits n j ha, List.getLast?_append]
      have h1 := ih _ _ h
      have h2 := candidate_getLast E base hits j i s ha
      cases hl : (sweep E base n (j + 1)
        (if Passes E base j then hits + 1 else hits)).getLast? with
      | none => simpa using h2
      | some e =>
        rw [hl] at h1
        simpa using h1

theorem mem_adaptive_sweep (E : Env) (base : Int) (n j i : Nat) (hits s : Int)
    (h : Event.adaptive i s ∈ sweep E base n j hits) :
    j ≤ i ∧ i < j + n ∧ s = swampCount E (candidateSeed base i)
      ∧ seDraw E (candidateSeed base i) = 5 ∧ i % 4096 = 4095
      ∧ (s < (if i > 0x1000 then 2 else 1) ↔ breakIndex E base n j hits = some i) := by
  induction n generalizing j hits with
  | zero => simp [sweep] at h
  | succ n ih =>
    by_cases ha : Aborts E base hits j
    · rw [sweep_of_aborts E base hits n j ha] at h
      simp only [List.mem_cons, List.mem_singleton, Event.adaptive.injEq, List.not_mem_nil,
        or_false, false_or, reduceCtorEq] at h
      obtain ⟨rfl, rfl⟩ := h
      rw [breakIndex_of_aborts E base hits n i ha]
      refine ⟨le_refl i, by omega, rfl, ha.1, ?_, ?_⟩
      · rw [← land_fff]
        exact ha.2.1.2
      · simp only [iff_true]
        exact ha.2.2
    · rw [sweep_of_not_aborts E base hits n j ha, List.mem_append] at h
      rw [breakIndex_of_not_aborts E base hits n j ha]
      rcases h with h | h
      · obtain ⟨rfl, rfl, h1, h2, h3⟩ := candidate_adaptive_mem E base hits j i s h
        refine ⟨le_refl i, by omega, rfl, h1, ?_, ?_⟩
        · rw [← land_fff]
          exact h3
        · constructor
          · intro hs
            exact absurd ⟨h1, ⟨h2, h3⟩, hs⟩ ha
          · intro hb
            have := breakIndex_bounds E base n (i + 1) i _ hb
            omega
      · obtain ⟨h1, h2, h3, h4, h5, h6⟩ := ih _ _ h
        exact ⟨by omega, by omega, h3, h4, h5, h6⟩

theorem checksAfter_sweep (E : Env) (base : Int) (n j r : Nat) (hits : Int)
    (hr : hits = (r : Int)) :
    ∀ p ∈ checksAfter r (sweep E base n j hits),
      p.2 = 0 ∧ j ≤ p.1 ∧ p.1 < j + n ∧ p.1 % 4096 = 4095
        ∧ seDraw E (candidateSeed base p.1) = 5 := by
  induction n generalizing j r hits with
  | zero => simp [sweep, checksAfter]
  | succ n ih =>
    intro p hp
    have hcand : p ∈ checksAfter r (candidate E base hits j).1 →
        p.2 = 0 ∧ j ≤ p.1 ∧ p.1 < j + (n + 1) ∧ p.1 % 4096 = 4095
          ∧ seDraw E (candidateSeed base p.1) = 5 := by
      intro hp
      rw [candidate_checksAfter] at hp
      split_ifs at hp with hc
      · rw [List.mem_singleton] at hp
        subst hp
        refine ⟨?_, le_refl j, by omega, ?_, hc.1⟩
        · have := hc.2.1
          simp only []
          omega
        · rw [← land_fff]
          exact hc.2.2
      · simp at hp
    by_cases ha : Aborts E base hits j
    · have e : (candidate E base hits j).1
          = [.step1 j (candidateSeed base j),
              .adaptive j (swampCount E (candidateSeed base j))] := by
        rw [candidate_of_aborts E base hits j ha]
      rw [sweep_of_aborts E base hits n j ha, ← e] at hp
      exact hcand hp
    · rw [sweep_of_not_aborts E base hits n j ha, checksAfter_append, List.mem_append] at hp
      rcases hp with hp | hp
      · exact hcand hp
      · have hr' : (if Passes E base j then hits + 1 else hits)
            = ((r + (recorded (candidate E base hits j).1).length : Nat) : Int) := by
          rw [candidate_recorded]
          by_cases hpass : Passes E base j
          · rw [if_pos hpass, if_pos ⟨hpass, ha⟩]
            simp only [List.length_singleton]
            push_cast
            omega
          · rw [if_neg hpass, if_neg (fun h => hpass h.1)]
            simp only [List.length_nil]
            push_cast
            omega
        obtain ⟨h1, h2, h3, h4, h5⟩ := ih (j + 1) _ _ hr' p hp
        exact ⟨h1, by omega, by omega, h4, h5⟩

theorem preFilter_adaptiveAt (E : Env) (base : Int) (n j : Nat) :
    adaptiveAt (preFilter E base n j).1 = [] := by
  induction n generalizing j with
  | zero => rfl
  | succ n ih =>
    unfold preFilter
    split_ifs
    · rfl
    · rw [adaptiveAt_cons, ih]
      rfl

theorem preFilter_checksAfter (E : Env) (base : Int) (n j r : Nat) :
    checksAfter r (preFilter E base n j).1 = [] := by
  induction n generalizing j with
  | zero => rfl
  | succ n ih =>
    unfold preFilter
    split_ifs
    · rfl
    · simp only [checksAfter, ih]

theorem processBase_adaptiveAt (E : Env) (c : Int) :
    adaptiveAt (processBase E c) =
      if (preFilter E (movedBase E c) 5 0).2 then
        adaptiveAt (sweep E (movedBase E c) 0x10000 0 0) else [] := by
  unfold processBase
  split_ifs
  · rw [adaptiveAt_append, adaptiveAt_append, preFilter_adaptiveAt]
    simp [adaptiveAt]
  · exact preFilter_adaptiveAt E _ 5 0

theorem processBase_checksAfter (E : Env) (c : Int) :
    checksAfter 0 (processBase E c) =
      if (preFilter E (movedBase E c) 5 0).2 then
        checksAfter 0 (sweep E (movedBase E c) 0x10000 0 0) else [] := by
  unfold processBase
  split_ifs
  · rw [List.append_assoc, checksAfter_append, preFilter_checksAfter, preFilter_recorded,
      checksAfter_append]
    simp [checksAfter]
  · exact preFilter_checksAfter E _ 5 0 0

theorem adaptiveAt_sweep_sorted (E : Env) (base : Int) (n j : Nat) (hits : Int) :
    (adaptiveAt (sweep E base n j hits)).Pairwise (· < ·)
      ∧ ∀ i ∈ adaptiveAt (sweep E base n j hits),
          j ≤ i ∧ i < j + n ∧ i % 4096 = 4095 ∧ seDraw E (candidateSeed base i) = 5 := by
  induction n generalizing j hits with
  | zero => simp [sweep, adaptiveAt]
  | succ n ih =>
    have hcand : ∀ i ∈ adaptiveAt (candidate E base hits j).1,
        i = j ∧ i % 4096 = 4095 ∧ seDraw E (candidateSeed base i) = 5 := by
      intro i hi
      rw [candidate_adaptiveAt] at hi
      split_ifs at hi with hc
      · rw [List.mem_singleton] at hi
        subst hi
        refine ⟨rfl, ?_, hc.1⟩
        rw [← land_fff]
        exact hc.2.2
      · simp at hi
    have hsorted : (adaptiveAt (candidate E base hits j).1).Pairwise (· < ·) := by
      rw [candidate_adaptiveAt]
      split_ifs <;> simp
    by_cases ha : Aborts E base hits j
    · have e : (candidate E base hits j).1
          = [.step1 j (candidateSeed base j),
              .adaptive j (swampCount E (candidateSeed base j))] := by
        rw [candidate_of_aborts E base hits j ha]
      rw [sweep_of_aborts E base hits n j ha, ← e]
      refine ⟨hsorted, fun i hi => ?_⟩
      obtain ⟨h1, h2, h3⟩ := hcand i hi
      exact ⟨by omega, by omega, h2, h3⟩
    · obtain ⟨i1, i2⟩ := ih (j + 1) (if Passes E base j then hits + 1 else hits)
      rw [sweep_of_not_aborts E base hits n j ha, adaptiveAt_append]
      refine ⟨List.pairwise_append.mpr ⟨hsorted, i1, fun a ha' b hb => ?_⟩, fun i hi => ?_⟩
      · have := hcand a ha'
        have := i2 b hb
        omega
      · rcases List.mem_append.mp hi with hi | hi
        · obtain ⟨h1, h2, h3⟩ := hcand i hi
          exact ⟨by omega, by omega, h2, h3⟩
        · obtain ⟨h1, h2, h3, h4⟩ := i2 i hi
          exact ⟨by omega, by omega, h3, h4⟩

theorem length_le_of_checkpoints (l : List Nat) (hs : l.Pairwise (· < ·))
    (hl : ∀ i ∈ l, i < 65536 ∧ i % 4096 = 4095) : l.length ≤ 16 := by
  have hmap : (l.map (· / 4096)).Nodup := by
    apply List.Nodup.map_on
    · intro x hx y hy hxy
      have := hl x hx
      have := hl y hy
      simp only [] at hxy
      omega
    · exact hs.imp (fun h => Nat.ne_of_lt h)
  have hsub : (l.map (· / 4096)).toFinset ⊆ Finset.range 16 := by
    intro x hx
    rw [List.mem_toFinset, List.mem_map] at hx
    obtain ⟨i, hi, rfl⟩ := hx
    have := hl i hi
    rw [Finset.mem_range]
    omega
  have hcard := Finset.card_le_card hsub
  rw [List.toFinset_card_of_nodup hmap, List.length_map, Finset.card_range] at hcard
  exact hcard

theorem mem_adaptiveAt_of_quiet (E : Env) (base : Int) (n j i : Nat)
    (hq : ∀ k, j ≤ k → k < i → ¬ Passes E base k ∧ ¬ Aborts E base 0 k)
    (hd : seDraw E (candidateSeed base i) = 5) (hm : i % 4096 = 4095)
    (hji : j ≤ i) (hin : i < j + n) :
    i ∈ adaptiveAt (sweep E base n j 0) := by
  induction n generalizing j with
  | zero => omega
  | succ n ih =>
    by_cases hij : j = i
    · subst hij
      have hc : adaptiveAt (candidate E base 0 j).1 = [j] := by
        rw [candidate_adaptiveAt, if_pos ⟨hd, rfl, by rw [land_fff]; exact hm⟩]
      by_cases ha : Aborts E base 0 j
      · have e : (candidate E base 0 j).1
            = [.step1 j (candidateSeed base j),
                .adaptive j (swampCount E (candidateSeed base j))] := by
          rw [candidate_of_aborts E base 0 j ha]
        rw [sweep_of_aborts E base 0 n j ha, ← e, hc]
        simp
      · rw [sweep_of_not_aborts E base 0 n j ha, adaptiveAt_append, hc]
        simp
    · obtain ⟨h1, h2⟩ := hq j (le_refl j) (by omega)
      rw [sweep_of_not_aborts E base 0 n j h2, if_neg h1, adaptiveAt_append, List.mem_append]
      right
      exact ih (j + 1) (fun k hk1 hk2 => hq k (by omega) hk2) (by omega) (by omega)

/-! ## C13: where the adaptive check is evaluated -/

theorem seDraw_envOneNeighbour (s : Int) : seDraw envOneNeighbour s = 5 := by
  simp [seDraw, envOneNeighbour, southLib, areaX, areaZ, wrap32]

theorem swampCount_envOneNeighbour (s : Int) : swampCount envOneNeighbour s = 1 := by
  simp [swampCount, envOneNeighbour, southLib, areaX, areaZ, wrap32]

theorem not_passes_envOneNeighbour (base : Int) (j : Nat) : ¬ Passes envOneNeighbour base j := by
  rintro ⟨_, h, _⟩
  simp [macroBiome, envOneNeighbour, constStack, southLib] at h

theorem not_aborts_envOneNeighbour (base : Int) (k : Nat) (hk : k < 8191) :
    ¬ Aborts envOneNeighbour base 0 k := by
  rintro ⟨_, ⟨_, h2⟩, h3⟩
  rw [land_fff] at h2
  rw [swampCount_envOneNeighbour] at h3
  have hk' : k = 4095 := by omega
  subst hk'
  exact absurd h3 (by decide)

/-- Counterexample to C13 as stated: in a fixture whose south-east draw always hits,
where exactly one neighbouring draw hits and no macro biome is swamp, the check is
evaluated at candidate 4095 (one swamp-compatible neighbour meets the threshold 1)
and again at candidate 8191: more than once, and not only at 4095. -/
theorem C13_counterexample :
    4095 ∈ adaptiveAt (processBase envOneNeighbour 0)
      ∧ 8191 ∈ adaptiveAt (processBase envOneNeighbour 0)
      ∧ ¬ ((adaptiveAt (processBase envOneNeighbour 0)).length ≤ 1
          ∧ ∀ j ∈ adaptiveAt (processBase envOneNeighbour 0), j = 4095) := by
  have hpf : (preFilter envOneNeighbour (movedBase envOneNeighbour 0) 5 0).2 = true :=
    (preFilter_snd_iff _ _ 5 0).mpr ⟨0, le_refl 0, by omega, seDraw_envOneNeighbour _⟩
  have h1 : 4095 ∈ adaptiveAt (processBase envOneNeighbour 0) := by
    rw [processBase_adaptiveAt, if_pos hpf]
    exact mem_adaptiveAt_of_quiet _ _ 0x10000 0 4095
      (fun k _ hk => ⟨not_passes_envOneNeighbour _ k, not_aborts_envOneNeighbour _ k (by omega)⟩)
      (seDraw_envOneNeighbour _) (by decide) (by omega) (by omega)
  have h2 : 8191 ∈ adaptiveAt (processBase envOneNeighbour 0) := by
    rw [processBase_adaptiveAt, if_pos hpf]
    exact mem_adaptiveAt_of_quiet _ _ 0x10000 0 8191
      (fun k _ hk => ⟨not_passes_envOneNeighbour _ k, not_aborts_envOneNeighbour _ k hk⟩)
      (seDraw_envOneNeighbour _) (by decide) (by omega) (by omega)
  refine ⟨h1, h2, ?_⟩
  rintro ⟨_, h⟩
  exact absurd (h 8191 h2) (by decide)

/-- C13, amended: during the enumeration of a seed base the adaptive check is
evaluated only at candidates `j ≤ 65535` with `(j & 0xfff) == 0xfff` (4095, 8191, ...)
whose south-east draw is 5, and only while no seed has been recorded yet for the
base; it is evaluated at most once at each such candidate, in ascending order, hence
at most 16 times per base. -/
theorem C13_adaptive_check_amended (E : Env) (c : Int) :
    (adaptiveAt (processBase E c)).Pairwise (· < ·)
      ∧ (∀ j ∈ adaptiveAt (processBase E c),
          j ≤ 65535 ∧ j &&& 0xfff = 0xfff ∧ 4095 ≤ j
            ∧ seDraw E (candidateSeed (movedBase E c) j) = 5)
      ∧ (adaptiveAt (processBase E c)).length ≤ 16
      ∧ (∀ p ∈ checksAfter 0 (processBase E c), p.2 = 0)
      ∧ (checksAfter 0 (processBase E c)).map Prod.fst = adaptiveAt (processBase E c) := by
  have hmap : ∀ (t : List Event) (r : Nat), (checksAfter r t).map Prod.fst = adaptiveAt t := by
    intro t
    induction t with
    | nil => intro r; rfl
    | cons e t ih =>
      intro r
      cases e <;> simp [checksAfter, adaptiveAt, ih]
  rw [processBase_adaptiveAt, processBase_checksAfter]
  split_ifs
  · obtain ⟨h1, h2⟩ := adaptiveAt_sweep_sorted E (movedBase E c) 0x10000 0 0
    refine ⟨h1, fun j hj => ?_, ?_, fun p hp => ?_, hmap _ 0⟩
    · obtain ⟨_, h3, h4, h5⟩ := h2 j hj
      refine ⟨by omega, ?_, by omega, h5⟩
      rw [land_fff]
      exact h4
    · refine length_le_of_checkpoints _ h1 (fun i hi => ?_)
      obtain ⟨_, h3, h4, _⟩ := h2 i hi
      exact ⟨by omega, h4⟩
    · exact (checksAfter_sweep E (movedBase E c) 0x10000 0 0 0 rfl p hp).1
  · simp [adaptiveAt, checksAfter]

/-! ## C14: the threshold of the adaptive check and what abandoning means -/

theorem breakIndex_spec (E : Env) (base : Int) (n j b : Nat) (hits : Int) (h0 : 0 ≤ hits)
    (h : breakIndex E base n j hits = some b) :
    hits = 0 ∧ Aborts E base 0 b
      ∧ ∀ i, j ≤ i → i < b → ¬ Passes E base i ∧ ¬ Aborts E base 0 i := by
  induction n generalizing j hits with
  | zero => simp [breakIndex] at h
  | succ n ih =>
    by_cases ha : Aborts E base hits j
    · rw [breakIndex_of_aborts E base hits n j ha] at h
      have hb : j = b := Option.some.inj h
      subst hb
      have hz : hits = 0 := ha.2.1.1
      subst hz
      exact ⟨rfl, ha, fun i h1 h2 => by omega⟩
    · rw [breakIndex_of_not_aborts E base hits n j ha] at h
      have hb := breakIndex_bounds E base n (j + 1) b _ h
      by_cases hp : Passes E base j
      · rw [if_pos hp] at h
        obtain ⟨hz, _, _⟩ := ih (j + 1) (hits + 1) (by omega) h
        omega
      · rw [if_neg hp] at h
        obtain ⟨hz, h1, h2⟩ := ih (j + 1) hits h0 h
        subst hz
        refine ⟨rfl, h1, fun i hi1 hi2 => ?_⟩
        by_cases hij : i = j
        · subst hij
          exact ⟨hp, ha⟩
        · exact h2 i (by omega) hi2

theorem specThreshold_eq (j : Nat) (h : j % 4096 = 4095) :
    (if j > 0x1000 then (2 : Int) else 1) = specThreshold j := by
  unfold specThreshold
  by_cases h1 : j > 0x1000
  · rw [if_pos h1, if_neg (by omega)]
  · rw [if_neg h1, if_pos (by omega)]

theorem preFilter_not_mem_adaptive (E : Env) (base : Int) (n j i : Nat) (s : Int) :
    Event.adaptive i s ∉ (preFilter E base n j).1 := by
  induction n generalizing j with
  | zero => simp [preFilter]
  | succ n ih =>
    unfold preFilter
    split_ifs
    · simp
    · simp only [List.mem_cons, reduceCtorEq, false_or]
      exact ih (j + 1)

theorem mem_adaptive_processBase (E : Env) (c : Int) (i : Nat) (s : Int)
    (h : Event.adaptive i s ∈ processBase E c) :
    (preFilter E (movedBase E c) 5 0).2 = true
      ∧ Event.adaptive i s ∈ sweep E (movedBase E c) 0x10000 0 0 := by
  unfold processBase at h
  split_ifs at h with hpf
  · refine ⟨hpf, ?_⟩
    simp only [List.mem_append, List.mem_singleton, reduceCtorEq, or_false] at h
    rcases h with h | h
    · exact absurd h (preFilter_not_mem_adaptive E _ 5 0 i s)
    · exact h
  · exact absurd h (preFilter_not_mem_adaptive E _ 5 0 i s)

theorem mem_adaptive_of_mem_adaptiveAt (t : List Event) (i : Nat) (h : i ∈ adaptiveAt t) :
    ∃ s, Event.adaptive i s ∈ t := by
  unfold adaptiveAt at h
  rw [List.mem_filterMap] at h
  obtain ⟨e, he, hi⟩ := h
  cases e <;> simp at hi
  subst hi
  exact ⟨_, he⟩

/-- C14: whenever the adaptive check is evaluated at candidate `j` with `swpc`
swamp-compatible neighbouring draws, `swpc` is the count of the three draws of that
candidate, and the loop is left by `break` there if and only if `swpc` is below the
threshold, which is 1 when at most 4096 candidates have been tried (`j = 4095`) and 2
at every later checkpoint. When the base is abandoned at `j`, the trace of its
enumeration ends with that check: exactly the candidates `0..j` were examined, full
generation ran for none at or above `j`, and nothing is recorded for the base. -/
theorem C14_abandon_threshold (E : Env) (c : Int) (j : Nat) (swpc : Int)
    (h : Event.adaptive j swpc ∈ processBase E c) :
    swpc = swampCount E (candidateSeed (movedBase E c) j)
      ∧ j % 4096 = 4095
      ∧ specThreshold j = (if j = 4095 then 1 else 2)
      ∧ (swpc < specThreshold j ↔ breakIndex E (movedBase E c) 0x10000 0 0 = some j)
      ∧ (swpc < specThreshold j ↔
          (sweep E (movedBase E c) 0x10000 0 0).getLast? = some (.adaptive j swpc))
      ∧ (swpc < specThreshold j →
          examined (processBase E c) = List.range (j + 1)
            ∧ (∀ i ∈ fullGen (processBase E c), i < j)
            ∧ recorded (processBase E c) = []) := by
  obtain ⟨hpf, hs⟩ := mem_adaptive_processBase E c j swpc h
  obtain ⟨_, _, h3, _, h5, h6⟩ := mem_adaptive_sweep E (movedBase E c) 0x10000 0 j 0 swpc hs
  rw [specThreshold_eq j h5] at h6
  have hlast : breakIndex E (movedBase E c) 0x10000 0 0 = some j ↔
      (sweep E (movedBase E c) 0x10000 0 0).getLast? = some (.adaptive j swpc) := by
    constructor
    · intro hb
      rw [sweep_getLast_of_break E _ _ _ j _ hb, h3]
    · intro hl
      cases hb : breakIndex E (movedBase E c) 0x10000 0 0 with
      | none => exact absurd hl (sweep_getLast_of_no_break E _ _ _ _ hb j swpc)
      | some b =>
        rw [sweep_getLast_of_break E _ _ _ b _ hb] at hl
        simp only [Option.some.injEq, Event.adaptive.injEq] at hl
        rw [hl.1]
  refine ⟨h3, h5, ?_, h6, h6.trans hlast, fun hlt => ?_⟩
  · unfold specThreshold
    by_cases hj : j = 4095
    · rw [if_pos hj, if_pos (by omega)]
    · rw [if_neg hj, if_neg (by omega)]
  · have hb := h6.mp hlt
    obtain ⟨e1, e2, e3⟩ := sweep_exact E (movedBase E c) 0x10000 0 0
    obtain ⟨_, _, hq⟩ := breakIndex_spec E (movedBase E c) 0x10000 0 j 0 (le_refl 0) hb
    rw [hb] at e1 e2 e3
    simp only [Option.getD_some, Nat.sub_zero, Option.toList_some] at e1 e2 e3
    refine ⟨?_, ?_, ?_⟩
    · rw [processBase_examined, if_pos hpf, e3, List.range_eq_range', List.range'_concat 0 j]
      simp
    · intro i hi
      rw [processBase_fullGen, if_pos hpf, e2, List.mem_filter, List.mem_range'_1] at hi
      omega
    · rw [processBase_recorded, if_pos hpf, e1]
      have : ((List.range' 0 j).filter fun i => decide (Passes E (movedBase E c) i)) = [] := by
        rw [List.filter_eq_nil_iff]
        intro i hi hp
        rw [List.mem_range'_1] at hi
        exact (hq i (by omega) (by omega)).1 (by simpa using hp)
      rw [this]
      rfl

theorem not_passes_envSparse (base : Int) (j : Nat) : ¬ Passes envSparse base j :=
  fun h => macroBiome_envSparse _ h.2.1

theorem adaptive_mem_envSparse :
    Event.adaptive 4095 (swampCount envSparse (candidateSeed (movedBase envSparse 0) 4095))
      ∈ processBase envSparse 0 := by
  have hpf : (preFilter envSparse (movedBase envSparse 0) 5 0).2 = true :=
    (preFilter_snd_iff _ _ 5 0).mpr ⟨0, le_refl 0, by omega, seDraw_envSparse _⟩
  have hm := mem_adaptiveAt_of_quiet envSparse (movedBase envSparse 0) 0x10000 0 4095
    (fun k _ hk => ⟨not_passes_envSparse _ k, not_aborts_of_mod _ _ _ _ (by omega)⟩)
    (seDraw_envSparse _) (by decide) (by omega) (by omega)
  obtain ⟨s, hs⟩ := mem_adaptive_of_mem_adaptiveAt _ _ hm
  obtain ⟨_, _, h3, _⟩ := mem_adaptive_sweep _ _ _ _ _ _ _ hs
  rw [← h3]
  unfold processBase
  rw [if_pos hpf]
  simp only [List.mem_append]
  exact Or.inl (Or.inr hs)

/-- Witness for C14: in the fixture whose neighbouring draws never hit, the check is
evaluated at candidate 4095 with the count of that candidate. -/
theorem C14_abandon_threshold_witness :
    Event.adaptive 4095 (swampCount envSparse (candidateSeed (movedBase envSparse 0) 4095))
        ∈ processBase envSparse 0
      ∧ (swampCount envSparse (candidateSeed (movedBase envSparse 0) 4095)
          = swampCount envSparse (candidateSeed (movedBase envSparse 0) 4095)
        ∧ 4095 % 4096 = 4095
        ∧ specThreshold 4095 = (if 4095 = 4095 then 1 else 2)
        ∧ (swampCount envSparse (candidateSeed (movedBase envSparse 0) 4095)
              < specThreshold 4095
            ↔ breakIndex envSparse (movedBase envSparse 0) 0x10000 0 0 = some 4095)
        ∧ (swampCount envSparse (candidateSeed (movedBase envSparse 0) 4095)
              < specThreshold 4095
            ↔ (sweep envSparse (movedBase envSparse 0) 0x10000 0 0).getLast?
                = some (.adaptive 4095
                    (swampCount envSparse (candidateSeed (movedBase envSparse 0) 4095))))
        ∧ (swampCount envSparse (candidateSeed (movedBase envSparse 0) 4095)
              < specThreshold 4095 →
            examined (processBase envSparse 0) = List.range (4095 + 1)
              ∧ (∀ i ∈ fullGen (processBase envSparse 0), i < 4095)
              ∧ recorded (processBase envSparse 0) = [])) :=
  ⟨adaptive_mem_envSparse, C14_abandon_threshold envSparse 0 4095 _ adaptive_mem_envSparse⟩

/-! ## C15: exact characterisation of the enumerator -/

theorem breakIndex_of_quiet (E : Env) (base : Int) (n j b : Nat)
    (hq : ∀ i, j ≤ i → i < b → ¬ Passes E base i ∧ ¬ Aborts E base 0 i)
    (hb : Aborts E base 0 b) (hjb : j ≤ b) (hbn : b < j + n) :
    breakIndex E base n j 0 = some b := by
  induction n generalizing j with
  | zero => omega
  | succ n ih =>
    by_cases hij : j = b
    · subst hij
      exact breakIndex_of_aborts E base 0 n j hb
    · obtain ⟨h1, h2⟩ := hq j (le_refl j) (by omega)
      rw [breakIndex_of_not_aborts E base 0 n j h2, if_neg h1]
      exact ih (j + 1) (fun i hi1 hi2 => hq i (by omega) hi2) (by omega) (by omega)

theorem breakIndex_iff (E : Env) (base : Int) (n b : Nat) :
    breakIndex E base n 0 0 = some b ↔
      b < n ∧ Aborts E base 0 b ∧ ∀ i, i < b → ¬ Passes E base i ∧ ¬ Aborts E base 0 i := by
  constructor
  · intro h
    obtain ⟨_, h2, h3⟩ := breakIndex_spec E base n 0 b 0 (le_refl 0) h
    have := breakIndex_bounds E base n 0 b 0 h
    exact ⟨by omega, h2, fun i hi => h3 i (Nat.zero_le i) hi⟩
  · rintro ⟨h1, h2, h3⟩
    exact breakIndex_of_quiet E base n 0 b (fun i _ hi => h3 i hi) h2 (Nat.zero_le b)
      (by omega)

theorem macroBiome_cell (E : Env) (s : Int)
    (hx1 : -2 ^ 30 ≤ E.regPosX) (hx2 : E.regPosX < 2 ^ 30 - 1)
    (hz1 : -2 ^ 30 ≤ E.regPosZ) (hz2 : E.regPosZ < 2 ^ 30 - 1) :
    macroBiome E s = E.g.genArea256 s (2 * E.regPosX + 2) (2 * E.regPosZ + 2) := by
  have ex : wrap32 (wrap32 (E.regPosX * 2) + 2) = 2 * E.regPosX + 2 := by
    unfold wrap32
    omega
  have ez : wrap32 (wrap32 (E.regPosZ * 2) + 2) = 2 * E.regPosZ + 2 := by
    unfold wrap32
    omega
  rw [macroBiome, ex, ez]

/-- C15: for a seed base that passes the pre-filter, with `L` the early-abandon point
(the candidate at which the loop is left by `break`, or 65536 if it never is), full
generation is invoked exactly for the candidates below `L` whose south-east draw is 5
and whose macro-biome sample is swamp, and the recorded seeds are, in ascending `j`,
exactly the candidates below `L` that pass (`Passes`: south-east draw 5, macro biome
swamp, all four structure positions swamp). The early-abandon point is the first
candidate at which the check fails with no seed recorded before it, and the macro
cell is `(2 * regPosX + 2, 2 * regPosZ + 2)` wherever that does not overflow `int`. -/
theorem C15_enumerator_exact (E : Env) (c : Int)
    (hpf : ∃ j : Nat, j < 5 ∧ seDraw E (probeSeed (movedBase E c) j) = 5) :
    (∀ j ∈ fullGen (processBase E c),
        seDraw E (candidateSeed (movedBase E c) j) = 5
          ∧ macroBiome E (candidateSeed (movedBase E c) j) = E.lib.Swamp)
      ∧ fullGen (processBase E c)
        = (List.range ((breakIndex E (movedBase E c) 0x10000 0 0).getD 0x10000)).filter
            (fun j => decide (seDraw E (candidateSeed (movedBase E c) j) = 5
              ∧ macroBiome E (candidateSeed (movedBase E c) j) = E.lib.Swamp))
      ∧ recorded (processBase E c)
        = ((List.range ((breakIndex E (movedBase E c) 0x10000 0 0).getD 0x10000)).filter
            fun j => decide (Passes E (movedBase E c) j)).map (candidateSeed (movedBase E c))
      ∧ (breakIndex E (movedBase E c) 0x10000 0 0).getD 0x10000 ≤ 0x10000
      ∧ (∀ b : Nat, breakIndex E (movedBase E c) 0x10000 0 0 = some b ↔
          b < 0x10000 ∧ Aborts E (movedBase E c) 0 b
            ∧ ∀ i, i < b → ¬ Passes E (movedBase E c) i ∧ ¬ Aborts E (movedBase E c) 0 i)
      ∧ (-2 ^ 30 ≤ E.regPosX → E.regPosX < 2 ^ 30 - 1 → -2 ^ 30 ≤ E.regPosZ →
          E.regPosZ < 2 ^ 30 - 1 → ∀ s : Int,
            macroBiome E s = E.g.genArea256 s (2 * E.regPosX + 2) (2 * E.regPosZ + 2)) := by
  obtain ⟨p, hp5, hp⟩ := hpf
  have hpf : (preFilter E (movedBase E c) 5 0).2 = true :=
    (preFilter_snd_iff _ _ 5 0).mpr ⟨p, Nat.zero_le p, by omega, hp⟩
  obtain ⟨e1, e2, _⟩ := sweep_exact E (movedBase E c) 0x10000 0 0
  simp only [Nat.zero_add, Nat.sub_zero, ← List.range_eq_range'] at e1 e2
  have hfg : fullGen (processBase E c)
      = (List.range ((breakIndex E (movedBase E c) 0x10000 0 0).getD 0x10000)).filter
          (fun j => decide (seDraw E (candidateSeed (movedBase E c) j) = 5
            ∧ macroBiome E (candidateSeed (movedBase E c) j) = E.lib.Swamp)) := by
    rw [processBase_fullGen, if_pos hpf, e2]
  refine ⟨fun j hj => ?_, hfg, ?_, ?_, fun b => breakIndex_iff E _ _ b,
    fun hx1 hx2 hz1 hz2 s => macroBiome_cell E s hx1 hx2 hz1 hz2⟩
  · rw [hfg, List.mem_filter] at hj
    simpa using hj.2
  · rw [processBase_recorded, if_pos hpf, e1]
  · cases hb : breakIndex E (movedBase E c) 0x10000 0 0 with
    | none => simp
    | some b =>
      have := breakIndex_bounds E _ _ _ _ _ hb
      simp only [Option.getD_some]
      omega

/-- Witness for C15: the fixture with every draw 5 and every biome swamp passes the
pre-filter with its first probe. -/
theorem C15_enumerator_exact_witness :
    (∃ j : Nat, j < 5 ∧ seDraw envAllSwamp (probeSeed (movedBase envAllSwamp 0) j) = 5)
      ∧ (
      (∀ j ∈ fullGen (processBase envAllSwamp 0),
          seDraw envAllSwamp (candidateSeed (movedBase envAllSwamp 0) j) = 5
            ∧ macroBiome envAllSwamp (candidateSeed (movedBase envAllSwamp 0) j) = envAllSwamp.lib.Swamp)
        ∧ fullGen (processBase envAllSwamp 0)
          = (List.range ((breakIndex envAllSwamp (movedBase envAllSwamp 0) 0x10000 0 0).getD 0x10000)).filter
              (fun j => decide (seDraw envAllSwamp (candidateSeed (movedBase envAllSwamp 0) j) = 5
                ∧ macroBiome envAllSwamp (candidateSeed (movedBase envAllSwamp 0) j) = envAllSwamp.lib.Swamp))
        ∧ recorded (processBase envAllSwamp 0)
          = ((List.range ((breakIndex envAllSwamp (movedBase envAllSwamp 0) 0x10000 0 0).getD 0x10000)).filter
              fun j => decide (Passes envAllSwamp (movedBase envAllSwamp 0) j)).map (candidateSeed (movedBase envAllSwamp 0))
        ∧ (breakIndex envAllSwamp (movedBase envAllSwamp 0) 0x10000 0 0).getD 0x10000 ≤ 0x10000
        ∧ (∀ b : Nat, breakIndex envAllSwamp (movedBase envAllSwamp 0) 0x10000 0 0 = some b ↔
            b < 0x10000 ∧ Aborts envAllSwamp (movedBase envAllSwamp 0) 0 b
              ∧ ∀ i, i < b → ¬ Passes envAllSwamp (movedBase envAllSwamp 0) i ∧ ¬ Aborts envAllSwamp (movedBase envAllSwamp 0) 0 i)
        ∧ (-2 ^ 30 ≤ envAllSwamp.regPosX → envAllSwamp.regPosX < 2 ^ 30 - 1 → -2 ^ 30 ≤ envAllSwamp.regPosZ →
            envAllSwamp.regPosZ < 2 ^ 30 - 1 → ∀ s : Int,
              macroBiome envAllSwamp s = envAllSwamp.g.genArea256 s (2 * envAllSwamp.regPosX + 2) (2 * envAllSwamp.regPosZ + 2))) :=
  ⟨⟨0, by omega, rfl⟩, C15_enumerator_exact envAllSwamp 0 ⟨0, by omega, rfl⟩⟩

/-! ## C16: the granularity of flushing -/

theorem pending_append (a b : List Event) (acc : List Int) :
    pending acc (a ++ b) = pending (pending acc a) b := by
  induction a generalizing acc with
  | nil => rfl
  | cons e t ih => cases e <;> simp [pending, ih]

theorem pending_of_no_flush (t : List Event) (acc : List Int) (h : Event.flush ∉ t) :
    pending acc t = acc ++ recorded t := by
  induction t generalizing acc with
  | nil => simp [pending, recorded]
  | cons e t ih =>
    have ht : Event.flush ∉ t := fun hh => h (List.mem_cons_of_mem e hh)
    cases e <;>
      first
      | exact absurd (List.mem_cons_self _ _) h
      | simp [pending, ih _ ht, recorded]

theorem flushCount_of_no_flush (t : List Event) (h : Event.flush ∉ t) : flushCount t = 0 := by
  unfold flushCount
  rw [List.length_eq_zero, List.filter_eq_nil_iff]
  intro e he hd
  have : e = Event.flush := by simpa using hd
  subst this
  exact h he

theorem flushCount_append (a b : List Event) :
    flushCount (a ++ b) = flushCount a + flushCount b := by
  simp [flushCount]

theorem confirm_no_flush (E : Env) (base hits : Int) (j : Nat) :
    Event.flush ∉ (confirm E base hits j).1 := by
  unfold confirm
  simp only []
  split_ifs <;> simp

theorem candidate_no_flush (E : Env) (base hits : Int) (j : Nat) :
    Event.flush ∉ (candidate E base hits j).1 := by
  have hc := confirm_no_flush E base hits j
  by_cases h1 : seDraw E (candidateSeed base j) = 5
  · by_cases h2 : hits = 0 ∧ j &&& 0xfff = 0xfff
    · by_cases h3 : swampCount E (candidateSeed base j) < (if j > 0x1000 then 2 else 1)
      · rw [candidate_of_aborts E base hits j ⟨h1, h2, h3⟩]
        simp
      · rw [candidate_of_checked E base hits j h1 h2 h3]
        simpa using hc
    · rw [candidate_of_unchecked E base hits j h1 h2]
      simpa using hc
  · rw [candidate_of_miss E base hits j h1]
    simp

theorem sweep_no_flush (E : Env) (base : Int) (n j : Nat) (hits : Int) :
    Event.flush ∉ sweep E base n j hits := by
  induction n generalizing j hits with
  | zero => simp [sweep]
  | succ n ih =>
    by_cases ha : Aborts E base hits j
    · rw [sweep_of_aborts E base hits n j ha]
      simp
    · rw [sweep_of_not_aborts E base hits n j ha, List.mem_append]
      rintro (h | h)
      · exact candidate_no_flush E base hits j h
      · exact ih _ _ h

theorem preFilter_no_flush (E : Env) (base : Int) (n j : Nat) :
    Event.flush ∉ (preFilter E base n j).1 := by
  induction n generalizing j with
  | zero => simp [preFilter]
  | succ n ih =>
    unfold preFilter
    split_ifs
    · simp
    · simp only [List.mem_cons, reduceCtorEq, false_or]
      exact ih (j + 1)

/-- The trace of one seed base: a part without any flush, followed by exactly one
flush when the base was swept and by nothing when the pre-filter rejected it, in
which case the part records nothing. -/
theorem processBase_shape (E : Env) (c : Int) :
    ∃ body : List Event, Event.flush ∉ body
      ∧ processBase E c
          = body ++ (if (preFilter E (movedBase E c) 5 0).2 then [Event.flush] else [])
      ∧ ((preFilter E (movedBase E c) 5 0).2 = false → recorded body = []) := by
  unfold processBase
  by_cases hpf : (preFilter E (movedBase E c) 5 0).2 = true
  · refine ⟨(preFilter E (movedBase E c) 5 0).1 ++ sweep E (movedBase E c) 0x10000 0 0,
      ?_, ?_, ?_⟩
    · rw [List.mem_append]
      rintro (h | h)
      · exact preFilter_no_flush E _ 5 0 h
      · exact sweep_no_flush E _ _ _ _ h
    · rw [if_pos hpf, if_pos hpf]
    · intro hf
      rw [hpf] at hf
      cases hf
  · refine ⟨(preFilter E (movedBase E c) 5 0).1, preFilter_no_flush E _ 5 0, ?_, ?_⟩
    · rw [if_neg hpf, if_neg hpf, List.append_nil]
    · intro _
      exact preFilter_recorded E _ 5 0

theorem pending_processBase (E : Env) (c : Int) (acc : List Int)
    (h : (preFilter E (movedBase E c) 5 0).2 = false → acc = []) :
    pending acc (processBase E c) = [] := by
  obtain ⟨body, h1, h2, h3⟩ := processBase_shape E c
  rw [h2, pending_append]
  by_cases hpf : (preFilter E (movedBase E c) 5 0).2 = true
  · rw [if_pos hpf]
    rfl
  · have hf : (preFilter E (movedBase E c) 5 0).2 = false := by simpa using hpf
    rw [if_neg hpf, pending_of_no_flush body acc h1, h3 hf, h hf]
    rfl

theorem pending_search (E : Env) (corpus : List Int) : pending [] (search E corpus) = [] := by
  induction corpus with
  | nil => rfl
  | cons c cs ih =>
    rw [search, pending_append, pending_processBase E c [] (fun _ => rfl), ih]

theorem pending_prefix_processBase (E : Env) (c : Int) (q : List Event)
    (hq : q <+: processBase E c) : pending [] q = [] ∨ pending [] q = recorded q := by
  obtain ⟨body, h1, h2, _⟩ := processBase_shape E c
  obtain ⟨t, ht⟩ := hq
  rw [h2] at ht
  have hnf : Event.flush ∉ q → pending [] q = recorded q := by
    intro hq
    rw [pending_of_no_flush q [] hq]
    rfl
  rcases List.append_eq_append_iff.mp ht with ⟨a, ha, _⟩ | ⟨a, ha, hb⟩
  · right
    apply hnf
    intro hh
    apply h1
    rw [ha]
    exact List.mem_append_left a hh
  · cases a with
    | nil =>
      right
      apply hnf
      rw [ha, List.append_nil]
      exact h1
    | cons e a' =>
      left
      by_cases hpf : (preFilter E (movedBase E c) 5 0).2 = true
      · rw [if_pos hpf] at hb
        simp only [List.cons_append, List.cons.injEq] at hb
        have ha' : a' = [] := by
          cases a' with
          | nil => rfl
          | cons e' a'' => simp at hb
        rw [ha, ← hb.1, ha', pending_append]
        rfl
      · rw [if_neg hpf] at hb
        simp at hb

theorem pending_prefix_search (E : Env) (corpus : List Int) (p : List Event)
    (hp : p <+: search E corpus) :
    pending [] p = [] ∨
      ∃ (pre : List Int) (c : Int) (post : List Int) (q : List Event),
        corpus = pre ++ c :: post ∧ q <+: processBase E c ∧ p = search E pre ++ q
          ∧ pending [] p = recorded q := by
  induction corpus generalizing p with
  | nil =>
    left
    have : p = [] := List.prefix_nil.mp hp
    rw [this]
    rfl
  | cons c cs ih =>
    obtain ⟨t, ht⟩ := hp
    rw [search] at ht
    rcases List.append_eq_append_iff.mp ht with ⟨a, ha, _⟩ | ⟨a, ha, hb⟩
    · have hq : p <+: processBase E c := ⟨a, ha.symm⟩
      rcases pending_prefix_processBase E c p hq with h | h
      · exact Or.inl h
      · exact Or.inr ⟨[], c, cs, p, rfl, hq, rfl, h⟩
    · have hpa : pending [] p = pending [] a := by
        rw [ha, pending_append, pending_processBase E c [] (fun _ => rfl)]
      rcases ih a ⟨t, hb.symm⟩ with h | ⟨pre, c', post, q, h1, h2, h3, h4⟩
      · left
        rw [hpa, h]
      · right
        refine ⟨c :: pre, c', post, q, by rw [h1]; rfl, h2, ?_, ?_⟩
        · rw [ha, h3, search, List.append_assoc]
        · rw [hpa, h4]

theorem flushCount_processBase (E : Env) (c : Int) :
    flushCount (processBase E c) = if (preFilter E (movedBase E c) 5 0).2 then 1 else 0 := by
  obtain ⟨body, h1, h2, _⟩ := processBase_shape E c
  rw [h2, flushCount_append, flushCount_of_no_flush body h1]
  split_ifs <;> rfl

/-- C16: over the trace of record and flush events, the trace of one seed base is a
part without any flush followed by exactly one flush when the base was swept
(exhausted or early-abandoned alike) and by none when the pre-filter rejected it, in
which case nothing was recorded; so the log is never flushed between two results of
one base. After the processing of any number of seed bases is complete no result is
unflushed, and at any moment (after any prefix of the whole trace) the unflushed
results are results of the single seed base being enumerated at that moment. -/
theorem C16_flush_granularity (E : Env) (corpus : List Int) :
    (∀ c : Int, ∃ body : List Event, Event.flush ∉ body
        ∧ processBase E c
            = body ++ (if (preFilter E (movedBase E c) 5 0).2 then [Event.flush] else [])
        ∧ ((preFilter E (movedBase E c) 5 0).2 = false → recorded body = []))
      ∧ (∀ c : Int, flushCount (processBase E c)
          = if (preFilter E (movedBase E c) 5 0).2 then 1 else 0)
      ∧ (∀ pre post : List Int, corpus = pre ++ post →
          search E pre <+: search E corpus ∧ pending [] (search E pre) = [])
      ∧ (∀ p : List Event, p <+: search E corpus →
          pending [] p = [] ∨
            ∃ (pre : List Int) (c : Int) (post : List Int) (q : List Event),
              corpus = pre ++ c :: post ∧ q <+: processBase E c ∧ p = search E pre ++ q
                ∧ pending [] p = recorded q) := by
  refine ⟨processBase_shape E, flushCount_processBase E, fun pre post h => ?_,
    pending_prefix_search E corpus⟩
  refine ⟨?_, pending_search E pre⟩
  rw [h, search_append]
  exact List.prefix_append _ _

/-! ## C17: the pre-filter and step 1 of the enumeration -/

theorem preFilter_rejects_iff (E : Env) (base : Int) :
    (preFilter E base 5 0).2 = false ↔
      ∀ j : Nat, 0x53 ≤ j → j ≤ 0x57 → seDraw E (candidateSeed base j) ≠ 5 := by
  rw [← Bool.not_eq_true, preFilter_snd_iff]
  constructor
  · intro h j h1 h2 hd
    apply h
    refine ⟨j - 0x53, Nat.zero_le _, by omega, ?_⟩
    rw [probeSeed_eq _ _ (by omega), show j - 0x53 + 0x53 = j by omega]
    exact hd
  · rintro h ⟨i, _, h2, h3⟩
    rw [probeSeed_eq _ i (by omega)] at h3
    exact h (i + 0x53) (by omega) (by omega) h3

theorem preFilter_envNoDraw : (preFilter envNoDraw (movedBase envNoDraw 0) 5 0).2 = false := by
  rw [preFilter_all_miss envNoDraw _ (fun _ _ => by simp [seDraw, envNoDraw, constLib])]

/-- C17: the pre-filter takes the same draw at the same cell as step 1 of the
enumeration, on the seeds of the candidates 0x53..0x57: probe `j` has the seed of
candidate `j + 0x53`. So whenever the pre-filter rejects a seed base (its loop ends
without `break` and line 235 continues), the south-east draw of each of the
candidates 0x53..0x57 differs from 5, each of them would have been rejected by step
1 (its pass through the loop body ends at line 250), none of them passes, and every
seed the enumeration of that base would have recorded, which is every seed the
pre-filter loses, has a high-bit value outside 0x53..0x57. The pre-filter rejects
exactly when all five candidates miss step 1. -/
theorem C17_prefilter_coherence (E : Env) (c : Int)
    (hrej : (preFilter E (movedBase E c) 5 0).2 = false) :
    (∀ j : Nat, j < 5 → probeSeed (movedBase E c) j = candidateSeed (movedBase E c) (j + 0x53))
      ∧ (∀ j : Nat, 0x53 ≤ j → j ≤ 0x57 →
          seDraw E (candidateSeed (movedBase E c) j) ≠ 5)
      ∧ (∀ j : Nat, 0x53 ≤ j → j ≤ 0x57 → ∀ hits : Int,
          candidate E (movedBase E c) hits j
            = ([.step1 j (candidateSeed (movedBase E c) j)], .next hits))
      ∧ (∀ j : Nat, 0x53 ≤ j → j ≤ 0x57 → ¬ Passes E (movedBase E c) j)
      ∧ recorded (processBase E c) = []
      ∧ (∀ s ∈ recorded (sweep E (movedBase E c) 0x10000 0 0),
          ∃ j : Nat, j ≤ 65535 ∧ (j < 0x53 ∨ 0x57 < j)
            ∧ s = candidateSeed (movedBase E c) j)
      ∧ ((preFilter E (movedBase E c) 5 0).2 = false ↔
          ∀ j : Nat, 0x53 ≤ j → j ≤ 0x57 →
            seDraw E (candidateSeed (movedBase E c) j) ≠ 5) := by
  have hmiss := (preFilter_rejects_iff E (movedBase E c)).mp hrej
  refine ⟨fun j hj => probeSeed_eq _ j hj, hmiss, fun j h1 h2 hits => ?_, fun j h1 h2 hp => ?_,
    ?_, fun s hs => ?_, preFilter_rejects_iff E (movedBase E c)⟩
  · exact candidate_of_miss E _ hits j (hmiss j h1 h2)
  · exact hmiss j h1 h2 hp.1
  · rw [processBase_recorded, hrej]
    rfl
  · obtain ⟨i, _, h2, h3, h4⟩ := mem_recorded_sweep E _ s _ _ _ hs
    refine ⟨i, by omega, ?_, h4⟩
    by_contra hcon
    exact hmiss i (by omega) (by omega) h3.1

/-- Witness for C17: a generator whose draw is never 5 rejects the base 0. -/
theorem C17_prefilter_coherence_witness :
    (preFilter envNoDraw (movedBase envNoDraw 0) 5 0).2 = false
      ∧ ((∀ j : Nat, j < 5 →
            probeSeed (movedBase envNoDraw 0) j
              = candidateSeed (movedBase envNoDraw 0) (j + 0x53))
        ∧ (∀ j : Nat, 0x53 ≤ j → j ≤ 0x57 →
            seDraw envNoDraw (candidateSeed (movedBase envNoDraw 0) j) ≠ 5)
        ∧ (∀ j : Nat, 0x53 ≤ j → j ≤ 0x57 → ∀ hits : Int,
            candidate envNoDraw (movedBase envNoDraw 0) hits j
              = ([.step1 j (candidateSeed (movedBase envNoDraw 0) j)], .next hits))
        ∧ (∀ j : Nat, 0x53 ≤ j → j ≤ 0x57 → ¬ Passes envNoDraw (movedBase envNoDraw 0) j)
        ∧ recorded (processBase envNoDraw 0) = []
        ∧ (∀ s ∈ recorded (sweep envNoDraw (movedBase envNoDraw 0) 0x10000 0 0),
            ∃ j : Nat, j ≤ 65535 ∧ (j < 0x53 ∨ 0x57 < j)
              ∧ s = candidateSeed (movedBase envNoDraw 0) j)
        ∧ ((preFilter envNoDraw (movedBase envNoDraw 0) 5 0).2 = false ↔
            ∀ j : Nat, 0x53 ≤ j → j ≤ 0x57 →
              seDraw envNoDraw (candidateSeed (movedBase envNoDraw 0) j) ≠ 5)) :=
  ⟨preFilter_envNoDraw, C17_prefilter_coherence envNoDraw 0 preFilter_envNoDraw⟩

/-! ## C18: the counter of hits -/

theorem sweep_prefix (E : Env) (base : Int) (k m j : Nat) (hits : Int) :
    sweep E base k j hits <+: sweep E base (k + m) j hits := by
  induction k generalizing j hits with
  | zero => exact List.nil_prefix
  | succ k ih =>
    rw [show k + 1 + m = (k + m) + 1 by omega]
    by_cases ha : Aborts E base hits j
    · rw [sweep_of_aborts E base hits k j ha, sweep_of_aborts E base hits (k + m) j ha]
    · rw [sweep_of_not_aborts E base hits k j ha, sweep_of_not_aborts E base hits (k + m) j ha]
      exact (List.prefix_append_right_inj _).mpr (ih _ _)

/-- C18: in the enumeration of a seed base the counter `hits` starts at 0 and, after
any number `k` of passes of the loop (whose trace is a prefix of the trace of the
whole enumeration), equals the number of seeds recorded so far; the adaptive check
is never evaluated after a seed has been recorded, and a pass entered with a positive
counter never leaves the loop; so once at least one seed is recorded for a base the
loop is not left by `break` and every candidate `0..65535` is examined. -/
theorem C18_hits_invariant (E : Env) (c : Int) :
    (∀ k : Nat, k ≤ 0x10000 →
        sweep E (movedBase E c) k 0 0 <+: sweep E (movedBase E c) 0x10000 0 0
          ∧ hitsAfter E (movedBase E c) k 0 0
              = ((recorded (sweep E (movedBase E c) k 0 0)).length : Nat))
      ∧ (∀ p ∈ checksAfter 0 (processBase E c), p.2 = 0)
      ∧ (∀ (hits : Int) (j : Nat), 0 < hits → ¬ Aborts E (movedBase E c) hits j)
      ∧ (recorded (processBase E c) ≠ [] →
          breakIndex E (movedBase E c) 0x10000 0 0 = none
            ∧ examined (processBase E c) = List.range 0x10000) := by
  refine ⟨fun k hk => ⟨?_, ?_⟩, fun p hp => ?_, fun hits j h => not_aborts_of_pos E _ hits j h,
    fun hne => ?_⟩
  · have := sweep_prefix E (movedBase E c) k (0x10000 - k) 0 0
    rwa [show k + (0x10000 - k) = 0x10000 by omega] at this
  · rw [hitsAfter_eq]
    simp
  · rw [processBase_checksAfter] at hp
    split_ifs at hp
    · exact (checksAfter_sweep E (movedBase E c) 0x10000 0 0 0 rfl p hp).1
    · simp at hp
  · rw [processBase_recorded] at hne
    split_ifs at hne with hpf
    · obtain ⟨e1, _, e3⟩ := sweep_exact E (movedBase E c) 0x10000 0 0
      cases hb : breakIndex E (movedBase E c) 0x10000 0 0 with
      | some b =>
        exfalso
        apply hne
        obtain ⟨_, _, hq⟩ := breakIndex_spec E (movedBase E c) 0x10000 0 b 0 (le_refl 0) hb
        rw [e1, hb]
        simp only [Option.getD_some, Nat.sub_zero]
        have : ((List.range' 0 b).filter fun i => decide (Passes E (movedBase E c) i)) = [] := by
          rw [List.filter_eq_nil_iff]
          intro i hi hp
          rw [List.mem_range'_1] at hi
          exact (hq i (by omega) (by omega)).1 (by simpa using hp)
        rw [this]
        rfl
      | none =>
        refine ⟨rfl, ?_⟩
        rw [processBase_examined, if_pos hpf, e3, hb, List.range_eq_range']
        simp
    · exact absurd rfl hne

/-! ## C12: determinism -/

theorem confirm_congr (E E' : Env) (base hits : Int) (j : Nat)
    (hS : E.lib.Swamp = E'.lib.Swamp)
    (hm : macroBiome E (candidateSeed base j) = macroBiome E' (candidateSeed base j))
    (hb : ∀ k : Fin 4, E.g.getBiomeAtPos (candidateSeed base j) (qhpos E base k)
      = E'.g.getBiomeAtPos (candidateSeed base j) (qhpos E' base k)) :
    confirm E base hits j = confirm E' base hits j := by
  unfold confirm
  simp only [hS, hm, hb 0, hb 1, hb 2, hb 3]

theorem candidate_congr (E E' : Env) (base hits : Int) (j : Nat)
    (hS : E.lib.Swamp = E'.lib.Swamp)
    (hd : seDraw E (candidateSeed base j) = seDraw E' (candidateSeed base j))
    (hc : swampCount E (candidateSeed base j) = swampCount E' (candidateSeed base j))
    (hm : macroBiome E (candidateSeed base j) = macroBiome E' (candidateSeed base j))
    (hb : ∀ k : Fin 4, E.g.getBiomeAtPos (candidateSeed base j) (qhpos E base k)
      = E'.g.getBiomeAtPos (candidateSeed base j) (qhpos E' base k)) :
    candidate E base hits j = candidate E' base hits j := by
  unfold candidate
  simp only [hd, hc, confirm_congr E E' base hits j hS hm hb]

theorem sweep_congr (E E' : Env) (base : Int) (n j : Nat) (hits : Int)
    (h : ∀ i, j ≤ i → i < j + n →
      ∀ hits', candidate E base hits' i = candidate E' base hits' i) :
    sweep E base n j hits = sweep E' base n j hits := by
  induction n generalizing j hits with
  | zero => rfl
  | succ n ih =>
    rw [sweep, sweep, h j (le_refl j) (by omega) hits]
    generalize candidate E' base hits j = r
    obtain ⟨evs, f⟩ := r
    cases f with
    | stop => rfl
    | next hits' =>
      simp only []
      rw [ih (j + 1) hits' (fun i hi1 hi2 => h i (by omega) (by omega))]

theorem preFilter_congr (E E' : Env) (base : Int) (n j : Nat)
    (h : ∀ i, j ≤ i → i < j + n → seDraw E (probeSeed base i) = seDraw E' (probeSeed base i)) :
    preFilter E base n j = preFilter E' base n j := by
  induction n generalizing j with
  | zero => rfl
  | succ n ih =>
    rw [preFilter, preFilter, h j (le_refl j) (by omega),
      ih (j + 1) (fun i hi1 hi2 => h i (by omega) (by omega))]

theorem processBase_congr (E E' : Env) (c : Int) (h : SameAnswers E E' c) :
    processBase E c = processBase E' c := by
  obtain ⟨hb, hS, hp, hc⟩ := h
  have h1 : preFilter E (movedBase E c) 5 0 = preFilter E' (movedBase E c) 5 0 :=
    preFilter_congr E E' _ 5 0 (fun i _ hi => hp i (by omega))
  have h2 : sweep E (movedBase E c) 0x10000 0 0 = sweep E' (movedBase E c) 0x10000 0 0 :=
    sweep_congr E E' _ _ 0 0 (fun i _ hi hits' => by
      obtain ⟨a1, a2, a3, a4⟩ := hc i (by omega)
      exact candidate_congr E E' _ hits' i hS a1 a2 a3 a4)
  unfold processBase
  rw [h1, h2, ← hb]

theorem search_congr (E E' : Env) (corpus : List Int)
    (h : ∀ c ∈ corpus, SameAnswers E E' c) : search E corpus = search E' corpus := by
  induction corpus with
  | nil => rfl
  | cons c cs ih =>
    rw [search, search, processBase_congr E E' c (h c (List.mem_cons_self c cs)),
      ih (fun d hd => h d (List.mem_cons_of_mem c hd))]

/-- C12: two runs of the search over the same seed-base sequence and region, in which
the generator answers every query of the search in the same way, produce identical
traces and hence identical result sequences, the same seeds in the same order; and
no state is carried from one seed base into the next: the trace of a corpus is the
trace of the bases before `c`, followed by the trace `processBase E c`, which
depends on `c` alone, followed by the trace of the bases after it. -/
theorem C12_determinism (E E' : Env) (corpus : List Int)
    (h : ∀ c ∈ corpus, SameAnswers E E' c) :
    search E corpus = search E' corpus
      ∧ recorded (search E corpus) = recorded (search E' corpus)
      ∧ (∀ (pre : List Int) (c : Int) (post : List Int), corpus = pre ++ c :: post →
          search E corpus = search E pre ++ (processBase E c ++ search E post)
            ∧ recorded (search E corpus)
                = recorded (search E pre)
                  ++ (recorded (processBase E c) ++ recorded (search E post))) := by
  have hs := search_congr E E' corpus h
  refine ⟨hs, by rw [hs], fun pre c post hc => ?_⟩
  have e : search E corpus = search E pre ++ (processBase E c ++ search E post) := by
    rw [hc, search_append, search]
  exact ⟨e, by rw [e, recorded_append, recorded_append]⟩

theorem sameAnswers_near (c : Int) : SameAnswers envAllSwamp envAllSwampNear c := by
  refine ⟨rfl, rfl, fun _ _ => rfl, fun j _ => ⟨rfl, rfl, ?_, fun _ => rfl⟩⟩
  simp [macroBiome, envAllSwamp, envAllSwampNear, constStack, stackColumn, wrap32]

/-- Witness for C12: two generators that differ only at macro cells the search at
region (0, 0) never samples answer every query for the corpus `[0, 1]` alike. -/
theorem C12_determinism_witness :
    (∀ c ∈ [(0 : Int), 1], SameAnswers envAllSwamp envAllSwampNear c)
      ∧ (search envAllSwamp [0, 1] = search envAllSwampNear [0, 1]
        ∧ recorded (search envAllSwamp [0, 1]) = recorded (search envAllSwampNear [0, 1])
        ∧ (∀ (pre : List Int) (c : Int) (post : List Int), [(0 : Int), 1] = pre ++ c :: post →
            search envAllSwamp [0, 1]
                = search envAllSwamp pre ++ (processBase envAllSwamp c ++ search envAllSwamp post)
              ∧ recorded (search envAllSwamp [0, 1])
                  = recorded (search envAllSwamp pre)
                    ++ (recorded (processBase envAllSwamp c)
                      ++ recorded (search envAllSwamp post)))) :=
  ⟨fun c _ => sameAnswers_near c,
    C12_determinism envAllSwamp envAllSwampNear [0, 1] (fun c _ => sameAnswers_near c)⟩

/-! ## C19: the index of the banner lookup -/

theorem parse_version_range (s : List Char) : 0 ≤ parse_version s ∧ parse_version s ≤ 10 := by
  unfold parse_version
  split_ifs <;> decide

theorem interactiveVersion_range (res : List Char) :
    0 ≤ interactiveVersion res ∧ interactiveVersion res ≤ 9 := by
  have h := parse_version_range res
  unfold interactiveVersion
  by_cases hl : parse_version res = MC_LEG
  · rw [if_pos hl]
    decide
  · rw [if_neg hl]
    have : parse_version res ≠ 10 := hl
    omega

theorem bannerVersion_isSome (v : Int) (h0 : 0 ≤ v) (h1 : v ≤ 10) :
    (bannerVersion v).isSome = true := by
  obtain ⟨n, rfl⟩ := Int.eq_ofNat_of_zero_le h0
  have hn : n ≤ 10 := by omega
  interval_cases n <;> rfl

/-- C19, the code at the failing input: on the command-line path the third argument
is stored in `mcversion` as it is, so the documented value 17 (as 113, or -1) reaches
the banner as an index outside the 11 entries of `versions[]`; only values 0..10 are
inside. On the interactive path `mcversion` is always one of 0..9 and the lookup
stays inside the table. -/
theorem C19_banner_index_at_17 :
    versions.length = 11
      ∧ cliVersion 4 (some 17) = 17
      ∧ bannerVersion (cliVersion 4 (some 17)) = none
      ∧ bannerVersion (cliVersion 4 (some 113)) = none
      ∧ bannerVersion (cliVersion 4 (some (-1))) = none
      ∧ bannerVersion (cliVersion 3 none) = some "1.7"
      ∧ (∀ v : Int, 0 ≤ v → v ≤ 10 → (bannerVersion v).isSome = true)
      ∧ (∀ res : List Char, 0 ≤ interactiveVersion res ∧ interactiveVersion res ≤ 9
          ∧ (bannerVersion (interactiveVersion res)).isSome = true) := by
  refine ⟨by decide, by decide, by decide, by decide, by decide, by decide,
    bannerVersion_isSome, fun res => ?_⟩
  have h := interactiveVersion_range res
  exact ⟨h.1, h.2, bannerVersion_isSome _ h.1 (by omega)⟩

end QuadHut
